import Mathlib

/-!
# strftime_To_Date

A shallow embedding of `src/strftime_To_Date.js` and the properties of its
specification.

Conventions of the embedding.

* A JavaScript string that the program processes (time string, format string,
  pattern source, directive token, captured value) is a `List Char`.  Message
  texts and type tags, which the program only builds and never inspects, are
  `String`s.
* A JavaScript Number is a `JSNum`: an integral IEEE-754 double, an infinity or
  NaN.  Only integral values arise in this program.  Negative zero is
  identified with zero (the program never distinguishes them).
* `null` / `undefined` results are `Option` values, thrown values are the
  error side of `Except`.
* What the engine or the environment decides (the clock, the local time zone,
  the text of a date and the message text of a native error) is a field of
  `Host`.
-/

namespace StrftimeToDate

/-! ## Numbers -/

/-- The Number values occurring in the program: NaN, the two infinities and the
finite integral doubles (`fin v` is used only with `v` representable). -/
inductive JSNum
  | nan
  | posInf
  | negInf
  | fin (v : Int)
  deriving DecidableEq, Repr

/-- The number of bits of `n` beyond the 53 bits of a double significand: the
least `e` at or above the start value with `n < 2 ^ (53 + e)`; `fuel` bounds
the search. -/
def excessBits (n : Nat) : Nat → Nat → Nat
  | 0, e => e
  | fuel + 1, e => if n >>> (53 + e) = 0 then e else excessBits n fuel (e + 1)

/-- Round a natural number to the nearest integer representable as a double
(53 significant bits, ties to even): with `e` excess bits, `n = q * 2 ^ e + r`
is rounded to `q * 2 ^ e` or `(q + 1) * 2 ^ e`.  The overflow to infinity is
decided by `numberOfNat`. -/
def roundNat (n : Nat) : Nat :=
  if n < 2 ^ 53 then n
  else
    let e := excessBits n n 0
    let q := n >>> e
    let r := n - (q <<< e)
    let half := 1 <<< (e - 1)
    if half < r ∨ (r = half ∧ q % 2 = 1) then (q + 1) <<< e else q <<< e

/-- The Number value for a mathematical natural number: the rounded value when
it is below `2 ^ 1024`, else `+Infinity`. -/
def numberOfNat (n : Nat) : JSNum :=
  if roundNat n >>> 1024 = 0 then JSNum.fin (roundNat n) else JSNum.posInf

namespace JSNum

/-- Unary minus. -/
def neg : JSNum → JSNum
  | nan => nan
  | posInf => negInf
  | negInf => posInf
  | fin v => fin (-v)

/-- The Number value for a mathematical integer. -/
def ofInt : Int → JSNum
  | Int.ofNat n => numberOfNat n
  | Int.negSucc n => neg (numberOfNat (n + 1))

/-- Number addition ( `a + b` on two Numbers). -/
def add : JSNum → JSNum → JSNum
  | fin a, fin b => ofInt (a + b)
  | nan, _ => nan
  | _, nan => nan
  | posInf, negInf => nan
  | negInf, posInf => nan
  | posInf, _ => posInf
  | _, posInf => posInf
  | negInf, _ => negInf
  | _, negInf => negInf

/-- Number subtraction ( `a - b` ). -/
def sub (a b : JSNum) : JSNum := add a (neg b)

/-- The relational operator `a < b` on Numbers: false when either is NaN. -/
def lt : JSNum → JSNum → Bool
  | nan, _ => false
  | _, nan => false
  | fin a, fin b => decide (a < b)
  | negInf, negInf => false
  | negInf, _ => true
  | _, negInf => false
  | posInf, _ => false
  | fin _, posInf => true

/-- The relational operator `a > b`, which is `b < a`. -/
def gt (a b : JSNum) : Bool := lt b a

end JSNum

/-! ## Character classes -/

/-- The class `\d` of a non-unicode regular expression: `[0-9]`. -/
def isDigit (c : Char) : Bool := decide (48 ≤ c.toNat ∧ c.toNat ≤ 57)

/-- The class `\w` of a non-unicode regular expression: `[A-Za-z0-9_]`. -/
def isWordChar (c : Char) : Bool :=
  decide ((65 ≤ c.toNat ∧ c.toNat ≤ 90) ∨ (97 ≤ c.toNat ∧ c.toNat ≤ 122)
    ∨ (48 ≤ c.toNat ∧ c.toNat ≤ 57) ∨ c.toNat = 95)

/-- The class `\s`: white space and line terminators. -/
def isWhiteSpace (c : Char) : Bool :=
  decide ((9 ≤ c.toNat ∧ c.toNat ≤ 13) ∨ c.toNat = 32 ∨ c.toNat = 160 ∨ c.toNat = 5760
    ∨ (8192 ≤ c.toNat ∧ c.toNat ≤ 8202) ∨ c.toNat = 8232 ∨ c.toNat = 8233
    ∨ c.toNat = 8239 ∨ c.toNat = 8287 ∨ c.toNat = 12288 ∨ c.toNat = 65279)

/-- The characters of `self.regex_escapeRegexReservedChars`,
`/[-[\]{}()*+?.,\\^$|#\s]/g`. -/
def isReservedChar (c : Char) : Bool :=
  c = '-' || c = '[' || c = ']' || c = '\x7b' || c = '\x7d' || c = '(' || c = ')'
    || c = '*' || c = '+' || c = '?' || c = '.' || c = ',' || c = '\\' || c = '^'
    || c = '$' || c = '|' || c = '#' || isWhiteSpace c

/-- The syntax characters of the pattern grammar, `^ $ \ . * + ? ( ) [ ] { } |`. -/
def isSyntaxChar (c : Char) : Bool :=
  c = '^' || c = '$' || c = '\\' || c = '.' || c = '*' || c = '+' || c = '?'
    || c = '(' || c = ')' || c = '[' || c = ']' || c = '\x7b' || c = '\x7d' || c = '|'

/-! ## Regular expressions -/

/-- The pattern fragment this program produces: a sequence of literal
characters and capture groups `(\d+)`. -/
inductive Atom
  | char (c : Char)
  | digits
  deriving DecidableEq, Repr

/-- The source text of the capture group, `(\d+)`. -/
def digitGroup : List Char := ['(', '\\', 'd', '+', ')']

/-- The states of the pattern reader: between atoms, after a backslash, and
the four positions inside a group `(\d+)` after its opening bracket. -/
inductive ReadState
  | atom
  | escape
  | group1
  | group2
  | group3
  | group4
  deriving DecidableEq, Repr

/-- Read a pattern source from a state.  Modelled: a character that is not a
syntax character stands for itself; a backslash followed by a character that is
not a letter, digit or underscore is an identity escape; `(\d+)` is a capturing
group of one or more digits.  Any other source is outside the modelled fragment
(`none`); `buildRegexToExtractValues_eq` shows that no source built by this
program is. -/
def readPattern : ReadState → List Char → Option (List Atom)
  | ReadState.atom, [] => some []
  | ReadState.atom, c :: s =>
    if c = '\\' then readPattern ReadState.escape s
    else if c = '(' then readPattern ReadState.group1 s
    else if isSyntaxChar c then none
    else (readPattern ReadState.atom s).map (fun p => Atom.char c :: p)
  | ReadState.escape, [] => none
  | ReadState.escape, c :: s =>
    if isWordChar c then none
    else (readPattern ReadState.atom s).map (fun p => Atom.char c :: p)
  | ReadState.group1, [] => none
  | ReadState.group1, c :: s => if c = '\\' then readPattern ReadState.group2 s else none
  | ReadState.group2, [] => none
  | ReadState.group2, c :: s => if c = 'd' then readPattern ReadState.group3 s else none
  | ReadState.group3, [] => none
  | ReadState.group3, c :: s => if c = '+' then readPattern ReadState.group4 s else none
  | ReadState.group4, [] => none
  | ReadState.group4, c :: s =>
    if c = ')' then (readPattern ReadState.atom s).map (fun p => Atom.digits :: p) else none

/-- Parse a pattern source. -/
def parsePattern (source : List Char) : Option (List Atom) :=
  readPattern ReadState.atom source

/-- A RegExp object (no flags): the pattern text that was handed to the
constructor (the internal slot `[[OriginalSource]]`) and the pattern it stands
for.  The property `source` is `RegExp.source`. -/
structure RegExp where
  originalSource : List Char
  atoms : List Atom
  deriving DecidableEq, Repr

/-- The line terminators: line feed, carriage return, U+2028 and U+2029. -/
def isLineTerminator (c : Char) : Bool :=
  decide (c.toNat = 10 ∨ c.toNat = 13 ∨ c.toNat = 8232 ∨ c.toNat = 8233)

/-- The escape sequence that stands for a line terminator in the property
`source`: `\n`, `\r`, `\u2028` or `\u2029`. -/
def escapedLineTerminator (c : Char) : List Char :=
  if c.toNat = 10 then ['\\', 'n']
  else if c.toNat = 13 then ['\\', 'r']
  else if c.toNat = 8232 then ['\\', 'u', '2', '0', '2', '8']
  else ['\\', 'u', '2', '0', '2', '9']

/-- The escaping of a pattern text by the engine when the property `source` is
read (the operation `EscapeRegExpPattern`, as V8 and SpiderMonkey do it): a `/`
that is not escaped gets a backslash, a line terminator, with or without a
backslash before it, becomes its escape sequence, and everything else is kept.
The flag tells that the character before was a backslash that starts an
escape.  A character class does not occur in the modelled fragment. -/
def escapeRegExpPattern : Bool → List Char → List Char
  | false, [] => []
  | true, [] => ['\\']
  | false, c :: s =>
    if c = '\\' then escapeRegExpPattern true s
    else if c = '/' then '\\' :: '/' :: escapeRegExpPattern false s
    else if isLineTerminator c then escapedLineTerminator c ++ escapeRegExpPattern false s
    else c :: escapeRegExpPattern false s
  | true, c :: s =>
    if isLineTerminator c then escapedLineTerminator c ++ escapeRegExpPattern false s
    else '\\' :: c :: escapeRegExpPattern false s

/-- The property `source` of a RegExp: the escaped pattern text, `(?:)` for
the empty pattern. -/
def RegExp.source (re : RegExp) : List Char :=
  if re.originalSource = [] then ['(', '?', ':', ')']
  else escapeRegExpPattern false re.originalSource

/-- The result of a successful match attempt: the matched text and the
captures, in group order. -/
abbrev MatchResult := List Char × List (List Char)

/-- The greedy quantifier of `(\d+)`: try the longest run of `k` digits first
and give characters back one at a time, never fewer than one. -/
def tryDigits (cont : List Char → Option MatchResult) (s : List Char) :
    Nat → Option MatchResult
  | 0 => none
  | k + 1 =>
    match cont (s.drop (k + 1)) with
    | some r => some (s.take (k + 1) ++ r.1, s.take (k + 1) :: r.2)
    | none => tryDigits cont s k

/-- Backtracking match of a pattern at the start of `s`. -/
def matchHere : List Atom → List Char → Option MatchResult
  | [], _ => some ([], [])
  | Atom.char c :: p, s =>
    match s with
    | [] => none
    | d :: s' => if d = c then (matchHere p s').map (fun r => (d :: r.1, r.2)) else none
  | Atom.digits :: p, s => tryDigits (matchHere p) s (s.takeWhile isDigit).length

/-- Leftmost match: the start positions are tried from left to right. -/
def matchFirst (p : List Atom) : List Char → Option MatchResult
  | [] => matchHere p []
  | c :: s =>
    match matchHere p (c :: s) with
    | some r => some r
    | none => matchFirst p s

/-- The method `RegExp.prototype.exec` of a non-global RegExp: `null`, or the
array of the matched text followed by the captures. -/
def RegExp.exec (re : RegExp) (s : List Char) : Option (List (List Char)) :=
  (matchFirst re.atoms s).map (fun r => r.1 :: r.2)

/-! ## Values of the program and its environment -/

/-- The errors the engine itself raises in this program. -/
inductive NativeError
  | typeError
  | referenceError (identifier : String)
  | syntaxError (source : List Char)
  deriving DecidableEq, Repr

/-- A Date object, kept as the seven arguments of its constructor
`new Date(year, monthIndex, date, hours, minutes, seconds, ms)`. -/
structure DateObj where
  year : JSNum
  monthIndex : JSNum
  date : JSNum
  hours : JSNum
  minutes : JSNum
  seconds : JSNum
  ms : JSNum
  deriving DecidableEq, Repr

/-- What the engine and the environment decide: the clock read by
`new Date().getTime()`, the time value of a Date built from local-time fields
(NaN for an invalid date), the text of `toDateString()` and the message text of
a native error. -/
structure Host where
  timeRightNow : Int
  getTime : DateObj → JSNum
  toDateString : DateObj → String
  nativeMessage : NativeError → String

/-- A thrown value: an object returned by one of the `Exception_*` functions
(with its `message` and `type`), or a native error. -/
inductive Thrown
  | object (message : String) (type : String)
  | native (e : NativeError)
  deriving DecidableEq, Repr

/-- The property `e.message`. -/
def Thrown.message (host : Host) : Thrown → String
  | Thrown.object m _ => m
  | Thrown.native e => host.nativeMessage e

/-- The property `e.type`; a native error has none ( `undefined` ). -/
def Thrown.type : Thrown → Option String
  | Thrown.object _ t => some t
  | Thrown.native _ => none

/-- The `debug` member of the error thrown by `strftime_To_Date`; `regex` is
`undefined` as long as `extractionRegexp` has not been assigned. -/
structure Debug where
  timeString : List Char
  format : List Char
  regex : Option RegExp
  deriving DecidableEq, Repr

/-- The object thrown by `strftime_To_Date`. -/
structure StructuredError where
  message : String
  type : Option String
  debug : Debug
  deriving DecidableEq, Repr

/-- The record `dP` of `buildDateDatastructure`. -/
structure DateParts where
  fullYear : JSNum
  month : JSNum
  day : JSNum
  hour : JSNum
  minute : JSNum
  second : JSNum
  millisecond : JSNum
  deriving DecidableEq, Repr

/-- The argument `validateInput`, read through the truthiness of its two
members. -/
structure Config where
  dateIsInPast : Bool
  dateIsInFuture : Bool
  deriving DecidableEq, Repr

/-! ## Built-in functions -/

/-- The value of a string of decimal digits. -/
def decimalValue (s : List Char) : Nat :=
  s.foldl (fun acc c => 10 * acc + (c.toNat - 48)) 0

/-- The call `parseInt(v, 10)`; `none` is an `undefined` argument.  Leading
white space is skipped, a sign is read, and the longest run of decimal digits
is converted; NaN when there is no digit.  The value is rounded to the nearest
double (an engine may also drop digits after the twentieth significant one;
all engines agree below `2 ^ 53`). -/
def parseInt (v : Option (List Char)) : JSNum :=
  match v with
  | none => JSNum.nan
  | some str =>
    let s := str.dropWhile isWhiteSpace
    let negative := s.head? = some '-'
    let s := if s.head? = some '-' ∨ s.head? = some '+' then s.tail else s
    let z := s.takeWhile isDigit
    if z = [] then JSNum.nan
    else if negative then (numberOfNat (decimalValue z)).neg
    else numberOfNat (decimalValue z)

/-- The call `s.replace(pat, rep)` with a string `pat` and a replacement text
without `$`: the first occurrence of `pat` is replaced. -/
def replaceFirst (pat rep : List Char) : List Char → List Char
  | [] => if pat = [] then rep else []
  | c :: s =>
    if pat.isPrefixOf (c :: s) then rep ++ (c :: s).drop pat.length
    else c :: replaceFirst pat rep s

/-- All matches of `/\%(\w)/g`, from left to right. -/
def matchAllPlaceholders : List Char → List (List Char)
  | [] => []
  | a :: rest =>
    match rest with
    | [] => []
    | b :: rest' =>
      if a = '%' ∧ isWordChar b then [a, b] :: matchAllPlaceholders rest'
      else matchAllPlaceholders (b :: rest')

/-- The call `new RegExp(pattern)` with a string: the RegExp keeps the pattern
text, and a text that cannot be read is a SyntaxError. -/
def RegExp.new (pattern : List Char) : Except Thrown RegExp :=
  match parsePattern pattern with
  | some atoms => Except.ok { originalSource := pattern, atoms := atoms }
  | none => Except.error (Thrown.native (NativeError.syntaxError pattern))

/-! ## The program -/

/-- The function `Exception_Parse_Value`. -/
def Exception_Parse_Value : Thrown :=
  Thrown.object
    "Error parsing values out of input. Make sure that the date conforms to the format specified."
    "PARSE_VALUE"

/-- The function `Exception_Input_DateIsInPast`. -/
def Exception_Input_DateIsInPast (host : Host) (dateObject : DateObj) : Thrown :=
  Thrown.object (host.toDateString dateObject ++ " is in the past. Date must be in the future.")
    "INPUT_SANITY_PAST"

/-- The function `Exception_Input_DateIsInFuture`. -/
def Exception_Input_DateIsInFuture (host : Host) (dateObject : DateObj) : Thrown :=
  Thrown.object (host.toDateString dateObject ++ " is in the future. Date must be in the past.")
    "INPUT_SANITY_FUTURE"

/-- The function `ExceptionHandler`. -/
def ExceptionHandler (host : Host) (e : Thrown) (input format : List Char)
    (regex : Option RegExp) : StructuredError :=
  { message := e.message host
    type := e.type
    debug := { timeString := input, format := format, regex := regex } }

/-- The function `extractPlaceholdersAsArray`: `String.prototype.match` with a
global pattern gives `null` when nothing matches. -/
def extractPlaceholdersAsArray (formatString : List Char) : Option (List (List Char)) :=
  match matchAllPlaceholders formatString with
  | [] => none
  | t :: ts => some (t :: ts)

/-- The function `_escapeRegexReservedChars`. -/
def _escapeRegexReservedChars (inputString : List Char) : List Char :=
  inputString.flatMap (fun c => if isReservedChar c then ['\\', c] else [c])

/-- The source text that `buildRegexToExtractValues` hands to `new RegExp`. -/
def patternSource (formatString : List Char) (variableNames : List (List Char)) : List Char :=
  variableNames.foldl (fun s v => replaceFirst v digitGroup s)
    (_escapeRegexReservedChars formatString)

/-- The function `buildRegexToExtractValues`; reading `length` of `null` is a
TypeError. -/
def buildRegexToExtractValues (formatString : List Char)
    (variableNames : Option (List (List Char))) : Except Thrown RegExp :=
  match variableNames with
  | none => Except.error (Thrown.native NativeError.typeError)
  | some names => RegExp.new (patternSource formatString names)

/-- The function `pullValuesOutOfFormattedTime`. -/
def pullValuesOutOfFormattedTime (timeString : List Char) (extractionRegexp : RegExp) :
    Except Thrown (List (List Char)) :=
  match extractionRegexp.exec timeString with
  | none => Except.error Exception_Parse_Value
  | some extractedValues => Except.ok extractedValues.tail

/-- The `switch` of `buildDateDatastructure`. -/
def assignField (dP : DateParts) (placeHolder : List Char) (value : JSNum) : DateParts :=
  if placeHolder = ['%', 'Y'] then { dP with fullYear := value }
  else if placeHolder = ['%', 'y'] then { dP with fullYear := value.add (JSNum.fin 2000) }
  else if placeHolder = ['%', 'm'] then { dP with month := value }
  else if placeHolder = ['%', 'd'] then { dP with day := value }
  else if placeHolder = ['%', 'h'] then { dP with hour := value }
  else if placeHolder = ['%', 'M'] then { dP with minute := value }
  else if placeHolder = ['%', 'S'] then { dP with second := value }
  else if placeHolder = ['%', 'L'] then { dP with millisecond := value }
  else dP

/-- The loop of `buildDateDatastructure`: the first list holds
`placeHolders[i], placeHolders[i+1], ...` and the second `values[i], ...`
(a missing entry is `undefined`). -/
def fillDateParts (dP : DateParts) : List (List Char) → List (List Char) → DateParts
  | [], _ => dP
  | placeHolder :: rest, values =>
    fillDateParts (assignField dP placeHolder (parseInt values.head?)) rest values.tail

/-- The initial record of `buildDateDatastructure`. -/
def defaultDateParts : DateParts :=
  { fullYear := JSNum.fin 0, month := JSNum.fin 1, day := JSNum.fin 1, hour := JSNum.fin 0,
    minute := JSNum.fin 0, second := JSNum.fin 0, millisecond := JSNum.fin 0 }

/-- The function `buildDateDatastructure`. -/
def buildDateDatastructure (placeHolders : Option (List (List Char)))
    (values : List (List Char)) : Except Thrown DateParts :=
  match placeHolders with
  | none => Except.error (Thrown.native NativeError.typeError)
  | some names => Except.ok (fillDateParts defaultDateParts names values)

/-- The function `checkSanity`.  The functions `Exception_Input_InvalidMonth`
and `Exception_Input_InvalidDay` it names are declared nowhere, so evaluating
either name is a ReferenceError. -/
def checkSanity (host : Host) (dateParts : DateParts) (dateObject : DateObj)
    (config : Config) : Except Thrown Unit :=
  let timeRightNow := JSNum.fin host.timeRightNow
  if dateParts.month.lt (JSNum.fin 1) || dateParts.month.gt (JSNum.fin 12) then
    Except.error (Thrown.native (NativeError.referenceError "Exception_Input_InvalidMonth"))
  else if dateParts.day.lt (JSNum.fin 1) || dateParts.day.gt (JSNum.fin 31) then
    Except.error (Thrown.native (NativeError.referenceError "Exception_Input_InvalidDay"))
  else if config.dateIsInPast && (host.getTime dateObject).lt timeRightNow then
    Except.error (Exception_Input_DateIsInFuture host dateObject)
  else if config.dateIsInFuture && (host.getTime dateObject).gt timeRightNow then
    Except.error (Exception_Input_DateIsInPast host dateObject)
  else Except.ok ()

/-- The Date built from a record: `new Date(fullYear, month - 1, day, hour,
minute, second, millisecond)`. -/
def dateOfParts (dateParts : DateParts) : DateObj :=
  { year := dateParts.fullYear
    monthIndex := dateParts.month.sub (JSNum.fin 1)
    date := dateParts.day
    hours := dateParts.hour
    minutes := dateParts.minute
    seconds := dateParts.second
    ms := dateParts.millisecond }

/-- The function `window.strftime_To_Date`; `validateInput` is `none` when the
argument is omitted. -/
def strftime_To_Date (host : Host) (timeString formatString : List Char)
    (validateInput : Option Config) : Except StructuredError DateObj :=
  let placeHolders := extractPlaceholdersAsArray formatString
  match buildRegexToExtractValues formatString placeHolders with
  | Except.error e => Except.error (ExceptionHandler host e timeString formatString none)
  | Except.ok extractionRegexp =>
    match pullValuesOutOfFormattedTime timeString extractionRegexp with
    | Except.error e =>
      Except.error (ExceptionHandler host e timeString formatString (some extractionRegexp))
    | Except.ok values =>
      match buildDateDatastructure placeHolders values with
      | Except.error e =>
        Except.error (ExceptionHandler host e timeString formatString (some extractionRegexp))
      | Except.ok dateParts =>
        let dateObj := dateOfParts dateParts
        match validateInput with
        | none => Except.ok dateObj
        | some config =>
          match checkSanity host dateParts dateObj config with
          | Except.error e =>
            Except.error (ExceptionHandler host e timeString formatString (some extractionRegexp))
          | Except.ok _ => Except.ok dateObj


/-- The value of the variable `dateParts` of `strftime_To_Date` once
`buildDateDatastructure` has returned; `none` when a statement before it
throws. -/
def parsedDateParts (timeString formatString : List Char) : Option DateParts :=
  let placeHolders := extractPlaceholdersAsArray formatString
  match buildRegexToExtractValues formatString placeHolders with
  | Except.error _ => none
  | Except.ok extractionRegexp =>
    match pullValuesOutOfFormattedTime timeString extractionRegexp with
    | Except.error _ => none
    | Except.ok values =>
      match buildDateDatastructure placeHolders values with
      | Except.error _ => none
      | Except.ok dateParts => some dateParts

/-! ## A sample environment -/

/-- Days from 1 January 1970 to the day `d` of month `m` (1 to 12) of year `y`
in the proleptic Gregorian calendar. -/
def daysFromCivil (y m d : Int) : Int :=
  let y1 := if m ≤ 2 then y - 1 else y
  let era := y1 / 400
  let yoe := y1 - era * 400
  let mp := if 2 < m then m - 3 else m + 9
  let doy := (153 * mp + 2) / 5 + d - 1
  let doe := yoe * 365 + yoe / 4 - yoe / 100 + doy
  era * 146097 + doe - 719468

/-- The time value of a Date in the time zone UTC: a year from 0 to 99 counts
from 1900, months and days carry over, and a value beyond 8.64e15 ms or built
from a non-finite field is NaN. -/
def utcTimeValue (d : DateObj) : JSNum :=
  match d.year, d.monthIndex, d.date, d.hours, d.minutes, d.seconds, d.ms with
  | JSNum.fin y, JSNum.fin mo, JSNum.fin dt, JSNum.fin h, JSNum.fin mi, JSNum.fin s,
      JSNum.fin ms =>
    let yr := if 0 ≤ y ∧ y ≤ 99 then 1900 + y else y
    let day := daysFromCivil (yr + mo / 12) (mo % 12 + 1) 1 + dt - 1
    let tv := day * 86400000 + h * 3600000 + mi * 60000 + s * 1000 + ms
    if -8640000000000000 ≤ tv ∧ tv ≤ 8640000000000000 then JSNum.fin tv else JSNum.nan
  | _, _, _, _, _, _, _ => JSNum.nan

/-- A sample environment: the time zone is UTC, the clock reads `now`
(milliseconds since 1 January 1970), and the texts are fixed. -/
def utcHost (now : Int) : Host :=
  { timeRightNow := now
    getTime := utcTimeValue
    toDateString := fun _ => "(date)"
    nativeMessage := fun e =>
      match e with
      | NativeError.typeError => "Cannot read properties of null (reading 'length')"
      | NativeError.referenceError identifier => identifier ++ " is not defined"
      | NativeError.syntaxError _ => "Invalid regular expression" }

/-- The clock at 6 November 2026, 00:00 UTC. -/
def sampleNow : Int := 1793923200000

/-! ## Predicates used in the statements -/

/-- A non-empty string of decimal digits. -/
def DigitString (s : List Char) : Prop := s ≠ [] ∧ s.all isDigit = true

instance (s : List Char) : Decidable (DigitString s) := by
  unfold DigitString; infer_instance

/-- The record that the three values `y`, `m`, `d` give. -/
def recordOf (y m d : JSNum) : DateParts :=
  { fullYear := y, month := m, day := d, hour := JSNum.fin 0, minute := JSNum.fin 0,
    second := JSNum.fin 0, millisecond := JSNum.fin 0 }

/-- The `type` member of the error that a call throws (`some none` when the
member is `undefined`); `none` when the call returns. -/
def errorType (result : Except StructuredError DateObj) : Option (Option String) :=
  match result with
  | Except.error e => some e.type
  | Except.ok _ => none

/-! ## Closed forms used in the proofs -/

/-- The replacement of one character by `_escapeRegexReservedChars`. -/
def escapeChar (c : Char) : List Char := if isReservedChar c then ['\\', c] else [c]

/-- The pattern source in closed form: the format read from left to right,
every `%` followed by a word character replaced by `(\d+)` and every other
character escaped when it is reserved. -/
def renderPattern : List Char → List Char
  | [] => []
  | a :: rest =>
    match rest with
    | [] => escapeChar a
    | b :: rest' =>
      if a = '%' ∧ isWordChar b then digitGroup ++ renderPattern rest'
      else escapeChar a ++ renderPattern (b :: rest')

/-- The pattern of the source in closed form. -/
def patternAtoms : List Char → List Atom
  | [] => []
  | a :: rest =>
    match rest with
    | [] => [Atom.char a]
    | b :: rest' =>
      if a = '%' ∧ isWordChar b then Atom.digits :: patternAtoms rest'
      else Atom.char a :: patternAtoms (b :: rest')

/-- The step of the loop of `buildRegexToExtractValues`. -/
def substitute (s v : List Char) : List Char := replaceFirst v digitGroup s

/-- No word character stands at the head of `s`. -/
def HeadNotWord (s : List Char) : Prop := ∀ c, s.head? = some c → isWordChar c = false

/-- Every element is a `%` followed by a word character. -/
def AllTokens (names : List (List Char)) : Prop :=
  ∀ t ∈ names, ∃ w, isWordChar w = true ∧ t = ['%', w]

deriving instance DecidableEq for Except

/-! ## Further definitions used in the statements -/

/-- The error of the call `strftime_To_Date("abc", "abc")` in the sample
environment. -/
def sampleTypeError : StructuredError :=
  { message := "Cannot read properties of null (reading 'length')"
    type := none
    debug := { timeString := "abc".toList, format := "abc".toList, regex := none } }

/-- The letters of the eight supported directives. -/
def supportedLetters : List Char := ['Y', 'y', 'm', 'd', 'h', 'M', 'S', 'L']

/-- The token that starts a string: its first two characters when they are a
`%` and a word character. -/
def tokenAt : List Char → Option (List Char)
  | a :: b :: _ => if a = '%' ∧ isWordChar b then some [a, b] else none
  | _ => none

/-- The two-character substrings `%` + word character of a string, one for
every position at which one starts, from left to right. -/
def tokenOccurrences (s : List Char) : List (List Char) :=
  s.tails.filterMap tokenAt

/-- A string with every occurrence of a `%` followed by a word character
replaced by the capture group `(\d+)`, the other characters kept. -/
def replaceAllTokens : List Char → List Char
  | [] => []
  | a :: rest =>
    match rest with
    | [] => [a]
    | b :: rest' =>
      if a = '%' ∧ isWordChar b then digitGroup ++ replaceAllTokens rest'
      else a :: replaceAllTokens (b :: rest')

/-- A Number that is a natural number or `+Infinity`. -/
def NatOrInfinity (x : JSNum) : Prop := x = JSNum.posInf ∨ ∃ n : Nat, x = JSNum.fin n

/-- A Number that is a natural number. -/
def IsNat (x : JSNum) : Prop := ∃ n : Nat, x = JSNum.fin n

/-- Every field of the record satisfies `P`. -/
def AllFields (P : JSNum → Prop) (dP : DateParts) : Prop :=
  P dP.fullYear ∧ P dP.month ∧ P dP.day ∧ P dP.hour ∧ P dP.minute ∧ P dP.second
    ∧ P dP.millisecond

/-- The text that a pattern matches when its groups, in order, take the given
values: a literal character stands for itself and the i-th group for the i-th
value. -/
def instantiateAtoms : List Atom → List (List Char) → List Char
  | [], _ => []
  | Atom.char c :: p, values => c :: instantiateAtoms p values
  | Atom.digits :: p, values => values.headD [] ++ instantiateAtoms p values.tail

/-- The format with its i-th directive (the i-th `%` + word character, from the
left) replaced by the i-th value, the other characters kept. -/
def substituteValues : List Char → List (List Char) → List Char
  | [], _ => []
  | a :: rest, values =>
    match rest with
    | [] => [a]
    | b :: rest' =>
      if a = '%' ∧ isWordChar b then values.headD [] ++ substituteValues rest' values.tail
      else a :: substituteValues (b :: rest') values

/-! # Theorems -/

/-! ## Character facts -/

theorem not_isWordChar_of_isReservedChar {c : Char} (h : isReservedChar c = true) :
    isWordChar c = false := by
  simp only [isReservedChar, Bool.or_eq_true, decide_eq_true_eq] at h
  rcases h with (((((((((((((((((h | h) | h) | h) | h) | h) | h) | h) | h) | h) | h) | h) | h) | h) | h) | h) | h) | h)
  all_goals first
    | (subst h; decide)
    | (simp only [isWhiteSpace, isWordChar, decide_eq_true_eq, decide_eq_false_iff_not] at h ⊢; omega)

theorem not_isReservedChar_of_isWordChar {c : Char} (h : isWordChar c = true) :
    isReservedChar c = false := by
  cases hr : isReservedChar c
  · rfl
  · rw [not_isWordChar_of_isReservedChar hr] at h; exact absurd h (by decide)

theorem isReservedChar_of_isSyntaxChar {c : Char} (h : isSyntaxChar c = true) :
    isReservedChar c = true := by
  simp only [isSyntaxChar, Bool.or_eq_true, decide_eq_true_eq] at h
  rcases h with (((((((((((((h | h) | h) | h) | h) | h) | h) | h) | h) | h) | h) | h) | h) | h)
  all_goals (subst h; decide)


theorem escape_cons (c : Char) (s : List Char) :
    _escapeRegexReservedChars (c :: s) = escapeChar c ++ _escapeRegexReservedChars s := by
  simp [_escapeRegexReservedChars, escapeChar, List.flatMap_cons]

theorem replaceFirst_append_of_not_mem (w : Char) (rep : List Char) :
    ∀ (p s : List Char), '%' ∉ p →
      replaceFirst ['%', w] rep (p ++ s) = p ++ replaceFirst ['%', w] rep s
  | [], _, _ => rfl
  | c :: p, s, h => by
    have hc : c ≠ '%' := fun e => h (by simp [e])
    have hp : '%' ∉ p := fun e => h (List.mem_cons_of_mem _ e)
    have hne : ('%' == c) = false := beq_eq_false_iff_ne.mpr (Ne.symm hc)
    simp [replaceFirst, List.isPrefixOf, hne, replaceFirst_append_of_not_mem w rep p s hp]

theorem replaceFirst_percent_cons (w : Char) (rep s : List Char) (hw : isWordChar w = true)
    (hs : HeadNotWord s) :
    replaceFirst ['%', w] rep ('%' :: s) = '%' :: replaceFirst ['%', w] rep s := by
  cases s with
  | nil => simp [replaceFirst, List.isPrefixOf]
  | cons c s =>
    have hc : isWordChar c = false := hs c rfl
    have hne : (w == c) = false := by
      cases h : w == c
      · rfl
      · have : w = c := by simpa using h
        rw [this, hc] at hw; exact absurd hw (by decide)
    simp [replaceFirst, List.isPrefixOf, hne]

theorem headNotWord_replaceFirst (w : Char) (s : List Char) (hs : HeadNotWord s) :
    HeadNotWord (replaceFirst ['%', w] digitGroup s) := by
  cases s with
  | nil => intro c h; simp [replaceFirst] at h
  | cons c s =>
    intro x hx
    by_cases hp : List.isPrefixOf ['%', w] (c :: s) = true
    · simp [replaceFirst, hp, digitGroup] at hx
      subst hx; decide
    · simp [replaceFirst, hp] at hx
      subst hx; exact hs c rfl

theorem allTokens_matchAllPlaceholders : ∀ (n : Nat) (f : List Char), f.length ≤ n →
    AllTokens (matchAllPlaceholders f)
  | _, [], _ => by intro t ht; simp [matchAllPlaceholders] at ht
  | _, [_], _ => by intro t ht; simp [matchAllPlaceholders] at ht
  | 0, _ :: _ :: _, h => by simp at h
  | n + 1, a :: b :: rest, h => by
    have h1 : (b :: rest).length ≤ n := by simpa using h
    have h2 : rest.length ≤ n := by simp at h1; omega
    intro t ht
    by_cases hab : a = '%' ∧ isWordChar b = true
    · simp only [matchAllPlaceholders, hab, and_self, if_true, List.mem_cons] at ht
      rcases ht with ht | ht
      · exact ⟨b, hab.2, ht⟩
      · exact allTokens_matchAllPlaceholders n rest h2 t ht
    · simp only [matchAllPlaceholders, hab, if_false] at ht
      exact allTokens_matchAllPlaceholders n (b :: rest) h1 t ht

theorem foldl_substitute_append (p : List Char) (hp : '%' ∉ p) :
    ∀ (names : List (List Char)) (s : List Char), AllTokens names →
      names.foldl substitute (p ++ s) = p ++ names.foldl substitute s
  | [], _, _ => rfl
  | t :: names, s, h => by
    obtain ⟨w, _, rfl⟩ := h t (List.mem_cons_self _ _)
    have h' : AllTokens names := fun x hx => h x (List.mem_cons_of_mem _ hx)
    simp only [List.foldl_cons, substitute]
    rw [replaceFirst_append_of_not_mem w digitGroup p s hp]
    exact foldl_substitute_append p hp names _ h'

theorem foldl_substitute_percent :
    ∀ (names : List (List Char)) (s : List Char), AllTokens names → HeadNotWord s →
      names.foldl substitute ('%' :: s) = '%' :: names.foldl substitute s
  | [], _, _, _ => rfl
  | t :: names, s, h, hs => by
    obtain ⟨w, hw, rfl⟩ := h t (List.mem_cons_self _ _)
    have h' : AllTokens names := fun x hx => h x (List.mem_cons_of_mem _ hx)
    simp only [List.foldl_cons, substitute]
    rw [replaceFirst_percent_cons w digitGroup s hw hs]
    exact foldl_substitute_percent names _ h' (headNotWord_replaceFirst w s hs)

theorem percent_not_mem_digitGroup : '%' ∉ digitGroup := by decide

theorem percent_not_mem_escapeChar {a : Char} (h : a ≠ '%') : '%' ∉ escapeChar a := by
  unfold escapeChar
  split <;> simp [Ne.symm h]

theorem escapeChar_percent : escapeChar '%' = ['%'] := by decide

theorem escapeChar_of_isWordChar {b : Char} (h : isWordChar b = true) : escapeChar b = [b] := by
  simp [escapeChar, not_isReservedChar_of_isWordChar h]

theorem headNotWord_escape (b : Char) (rest : List Char) (hb : isWordChar b = false) :
    HeadNotWord (_escapeRegexReservedChars (b :: rest)) := by
  intro c hc
  rw [escape_cons] at hc
  unfold escapeChar at hc
  split at hc
  · simp at hc; subst hc; decide
  · simp at hc; subst hc; exact hb

theorem foldl_substitute_escape : ∀ (n : Nat) (f : List Char), f.length ≤ n →
    (matchAllPlaceholders f).foldl substitute (_escapeRegexReservedChars f) = renderPattern f
  | _, [], _ => rfl
  | _, [a], _ => by
    simp [matchAllPlaceholders, renderPattern, escapeChar, _escapeRegexReservedChars]
  | 0, _ :: _ :: _, h => by simp at h
  | n + 1, a :: b :: rest, h => by
    have h1 : (b :: rest).length ≤ n := by simpa using h
    have h2 : rest.length ≤ n := by simp at h1; omega
    by_cases hab : a = '%' ∧ isWordChar b = true
    · obtain ⟨rfl, hb⟩ := hab
      have hstep : substitute ('%' :: b :: _escapeRegexReservedChars rest) ['%', b]
          = digitGroup ++ _escapeRegexReservedChars rest := by
        simp [substitute, replaceFirst, List.isPrefixOf]
      simp only [matchAllPlaceholders, renderPattern, hb, and_self, if_true, List.foldl_cons]
      rw [escape_cons, escape_cons, escapeChar_percent, escapeChar_of_isWordChar hb]
      simp only [List.singleton_append]
      rw [hstep, foldl_substitute_append digitGroup percent_not_mem_digitGroup _ _
        (allTokens_matchAllPlaceholders n rest h2), foldl_substitute_escape n rest h2]
    · simp only [matchAllPlaceholders, renderPattern, hab, if_false]
      rw [escape_cons]
      by_cases ha : a = '%'
      · subst ha
        have hb : isWordChar b = false := by
          cases hw : isWordChar b
          · rfl
          · exact absurd ⟨rfl, hw⟩ hab
        rw [escapeChar_percent]
        simp only [List.singleton_append]
        rw [foldl_substitute_percent _ _ (allTokens_matchAllPlaceholders n _ h1)
          (headNotWord_escape b rest hb), foldl_substitute_escape n _ h1]
      · rw [foldl_substitute_append _ (percent_not_mem_escapeChar ha) _ _
          (allTokens_matchAllPlaceholders n _ h1), foldl_substitute_escape n _ h1]

/-- The source handed to `new RegExp` is the closed form. -/
theorem patternSource_eq_renderPattern (f : List Char) :
    patternSource f (matchAllPlaceholders f) = renderPattern f :=
  foldl_substitute_escape f.length f (le_refl _)

theorem parsePattern_digitGroup_append (s : List Char) :
    parsePattern (digitGroup ++ s) = (parsePattern s).map (fun p => Atom.digits :: p) := by
  simp [digitGroup, parsePattern, readPattern]

theorem parsePattern_escapeChar_append (a : Char) (s : List Char) :
    parsePattern (escapeChar a ++ s) = (parsePattern s).map (fun p => Atom.char a :: p) := by
  unfold escapeChar
  by_cases hr : isReservedChar a = true
  · simp [hr, parsePattern, readPattern, not_isWordChar_of_isReservedChar hr]
  · have h1 : a ≠ '\\' := by rintro rfl; exact hr (by decide)
    have h2 : a ≠ '(' := by rintro rfl; exact hr (by decide)
    have h3 : isSyntaxChar a = false := by
      cases hs : isSyntaxChar a
      · rfl
      · exact absurd (isReservedChar_of_isSyntaxChar hs) hr
    simp [hr, parsePattern, readPattern, h1, h2, h3]

theorem parsePattern_renderPattern : ∀ (n : Nat) (f : List Char), f.length ≤ n →
    parsePattern (renderPattern f) = some (patternAtoms f)
  | _, [], _ => rfl
  | _, [a], _ => by
    have := parsePattern_escapeChar_append a []
    simpa [renderPattern, patternAtoms, parsePattern] using this
  | 0, _ :: _ :: _, h => by simp at h
  | n + 1, a :: b :: rest, h => by
    have h1 : (b :: rest).length ≤ n := by simpa using h
    have h2 : rest.length ≤ n := by simp at h1; omega
    by_cases hab : a = '%' ∧ isWordChar b = true
    · simp only [renderPattern, patternAtoms, hab, and_self, if_true]
      rw [parsePattern_digitGroup_append, parsePattern_renderPattern n rest h2]; rfl
    · simp only [renderPattern, patternAtoms, hab, if_false]
      rw [parsePattern_escapeChar_append, parsePattern_renderPattern n _ h1]; rfl

/-- Every source built by the program is in the modelled fragment: on the array
of the placeholders of the format, `buildRegexToExtractValues` returns the
RegExp of the closed form. -/
theorem buildRegexToExtractValues_some (f : List Char) :
    buildRegexToExtractValues f (some (matchAllPlaceholders f))
      = Except.ok { originalSource := renderPattern f, atoms := patternAtoms f } := by
  simp only [buildRegexToExtractValues, RegExp.new, patternSource_eq_renderPattern,
    parsePattern_renderPattern f.length f (le_refl _)]

theorem extractPlaceholdersAsArray_of_ne_nil {f : List Char} (h : matchAllPlaceholders f ≠ []) :
    extractPlaceholdersAsArray f = some (matchAllPlaceholders f) := by
  unfold extractPlaceholdersAsArray
  cases hm : matchAllPlaceholders f with
  | nil => exact absurd hm h
  | cons t ts => rfl

theorem buildRegexToExtractValues_eq (f : List Char) (h : matchAllPlaceholders f ≠ []) :
    buildRegexToExtractValues f (extractPlaceholdersAsArray f)
      = Except.ok { originalSource := renderPattern f, atoms := patternAtoms f } := by
  rw [extractPlaceholdersAsArray_of_ne_nil h, buildRegexToExtractValues_some]

/-! ## Numbers and `parseInt` -/

theorem numberOfNat_of_lt {n : Nat} (h : n < 2 ^ 53) : numberOfNat n = JSNum.fin (n : Int) := by
  have hr : roundNat n = n := by unfold roundNat; rw [if_pos h]
  have h53 : n >>> 53 = 0 := by
    rw [Nat.shiftRight_eq_div_pow]; exact Nat.div_eq_of_lt h
  have hz : n >>> 1024 = 0 := by
    show n >>> (53 + 971) = 0
    rw [Nat.shiftRight_add, h53, Nat.zero_shiftRight]
  simp [numberOfNat, hr, hz]

theorem isDigit_of_digitString {s : List Char} (h : DigitString s) :
    ∀ c ∈ s, isDigit c = true := by
  intro c hc
  exact List.all_eq_true.mp h.2 c hc

theorem not_isWhiteSpace_of_isDigit {c : Char} (h : isDigit c = true) :
    isWhiteSpace c = false := by
  simp only [isDigit, isWhiteSpace, decide_eq_true_eq, decide_eq_false_iff_not] at h ⊢
  omega

theorem takeWhile_isDigit_self {s : List Char} (h : ∀ c ∈ s, isDigit c = true) :
    s.takeWhile isDigit = s := by
  induction s with
  | nil => rfl
  | cons c s ih =>
    have hc := h c (List.mem_cons_self _ _)
    simp [List.takeWhile, hc, ih (fun x hx => h x (List.mem_cons_of_mem _ hx))]

/-- On a non-empty string of decimal digits `parseInt(s, 10)` is the Number
for its decimal value. -/
theorem parseInt_digitString {s : List Char} (h : DigitString s) :
    parseInt (some s) = numberOfNat (decimalValue s) := by
  have hd := isDigit_of_digitString h
  cases s with
  | nil => exact absurd rfl h.1
  | cons c s =>
    have hc : isDigit c = true := hd c (List.mem_cons_self _ _)
    have hw : isWhiteSpace c = false := not_isWhiteSpace_of_isDigit hc
    have h1 : c ≠ '-' := by rintro rfl; exact absurd hc (by decide)
    have h2 : c ≠ '+' := by rintro rfl; exact absurd hc (by decide)
    have ht : (c :: s).takeWhile isDigit = c :: s := takeWhile_isDigit_self hd
    simp only [parseInt, List.dropWhile, hw, List.head?_cons, Option.some.injEq, h1, h2,
      or_self, if_false, ht, decide_False]
    simp

/-! ## Matching -/

/-- A run of digits followed by a text that does not start with a digit is the
longest run of digits at the start. -/
theorem takeWhile_isDigit_append {y rest : List Char} (hy : ∀ c ∈ y, isDigit c = true)
    (hr : ∀ c, rest.head? = some c → isDigit c = false) :
    (y ++ rest).takeWhile isDigit = y := by
  induction y with
  | nil =>
    cases rest with
    | nil => rfl
    | cons c r => simp [List.takeWhile, hr c rfl]
  | cons c y ih =>
    have hc := hy c (List.mem_cons_self _ _)
    simp [List.takeWhile, hc, ih (fun x hx => hy x (List.mem_cons_of_mem _ hx))]

theorem matchHere_char (c : Char) (p : List Atom) (s : List Char) :
    matchHere (Atom.char c :: p) (c :: s)
      = (matchHere p s).map (fun r => (c :: r.1, r.2)) := by
  simp [matchHere]

/-- The group `(\d+)` takes a whole run of digits when the rest of the pattern
matches right after the run. -/
theorem matchHere_digits {y rest : List Char} {p : List Atom} {r : MatchResult}
    (hy : DigitString y) (hr : ∀ c, rest.head? = some c → isDigit c = false)
    (hp : matchHere p rest = some r) :
    matchHere (Atom.digits :: p) (y ++ rest) = some (y ++ r.1, y :: r.2) := by
  have ht := takeWhile_isDigit_append (isDigit_of_digitString hy) hr
  obtain ⟨k, hk⟩ : ∃ k, y.length = k + 1 := by
    cases y with
    | nil => exact absurd rfl hy.1
    | cons c y => exact ⟨y.length, rfl⟩
  have hdrop : (y ++ rest).drop (k + 1) = rest := by
    rw [← hk]; simp
  have htake : (y ++ rest).take (k + 1) = y := by
    rw [← hk]; simp
  simp only [matchHere, ht, hk, tryDigits, hdrop, hp, htake]

theorem matchFirst_of_matchHere {p : List Atom} {s : List Char} {r : MatchResult}
    (h : matchHere p s = some r) : matchFirst p s = some r := by
  cases s with
  | nil => simpa [matchFirst] using h
  | cons c s => simp [matchFirst, h]

/-! ## The steps of `strftime_To_Date` chained -/

/-- Without a validation config and with a directive in the format, a match of
the derived pattern gives the date of the record filled from the captures. -/
theorem strftime_To_Date_of_match {host : Host} {ts f : List Char} {r : MatchResult}
    (h : matchAllPlaceholders f ≠ []) (hm : matchFirst (patternAtoms f) ts = some r) :
    strftime_To_Date host ts f none
      = Except.ok (dateOfParts (fillDateParts defaultDateParts (matchAllPlaceholders f) r.2)) := by
  simp [strftime_To_Date, buildRegexToExtractValues_some, pullValuesOutOfFormattedTime,
    RegExp.exec, hm, extractPlaceholdersAsArray_of_ne_nil h, buildDateDatastructure]

theorem parsedDateParts_of_match {ts f : List Char} {r : MatchResult}
    (h : matchAllPlaceholders f ≠ []) (hm : matchFirst (patternAtoms f) ts = some r) :
    parsedDateParts ts f
      = some (fillDateParts defaultDateParts (matchAllPlaceholders f) r.2) := by
  simp [parsedDateParts, buildRegexToExtractValues_some, pullValuesOutOfFormattedTime,
    RegExp.exec, hm, extractPlaceholdersAsArray_of_ne_nil h, buildDateDatastructure]

/-- Three runs of digits separated by hyphens are matched by
`(\d+)\-(\d+)\-(\d+)` at the first position, each group taking a whole run. -/
theorem matchFirst_three {a b c : List Char} (ha : DigitString a) (hb : DigitString b)
    (hc : DigitString c) :
    matchFirst [Atom.digits, Atom.char '-', Atom.digits, Atom.char '-', Atom.digits]
        (a ++ ['-'] ++ b ++ ['-'] ++ c)
      = some (a ++ '-' :: (b ++ '-' :: (c ++ [])), [a, b, c]) := by
  have hnil : ∀ x : Char, ([] : List Char).head? = some x → isDigit x = false := by
    intro x hx; simp at hx
  have hdash : ∀ (s : List Char) (x : Char), ('-' :: s).head? = some x → isDigit x = false := by
    intro s x hx
    simp at hx; subst hx; decide
  have h3 : matchHere [Atom.digits] (c ++ []) = some (c ++ [], [c]) :=
    matchHere_digits (r := ([], [])) hc hnil (by simp [matchHere])
  have h2 : matchHere [Atom.digits, Atom.char '-', Atom.digits] (b ++ '-' :: (c ++ []))
      = some (b ++ '-' :: (c ++ []), [b, c]) :=
    matchHere_digits hb (hdash _) (by rw [matchHere_char, h3]; rfl)
  have h1 : matchHere [Atom.digits, Atom.char '-', Atom.digits, Atom.char '-', Atom.digits]
      (a ++ '-' :: (b ++ '-' :: (c ++ [])))
      = some (a ++ '-' :: (b ++ '-' :: (c ++ [])), [a, b, c]) :=
    matchHere_digits ha (hdash _) (by rw [matchHere_char, h2]; rfl)
  have hs : a ++ ['-'] ++ b ++ ['-'] ++ c = a ++ '-' :: (b ++ '-' :: (c ++ [])) := by simp
  rw [hs]
  exact matchFirst_of_matchHere h1

theorem placeholders_ymd :
    matchAllPlaceholders "%Y-%m-%d".toList = [['%', 'Y'], ['%', 'm'], ['%', 'd']] := by decide

theorem placeholders_mdy :
    matchAllPlaceholders "%m-%d-%Y".toList = [['%', 'm'], ['%', 'd'], ['%', 'Y']] := by decide

theorem patternAtoms_ymd : patternAtoms "%Y-%m-%d".toList
    = [Atom.digits, Atom.char '-', Atom.digits, Atom.char '-', Atom.digits] := by decide

theorem patternAtoms_mdy : patternAtoms "%m-%d-%Y".toList
    = [Atom.digits, Atom.char '-', Atom.digits, Atom.char '-', Atom.digits] := by decide

/-- The record of a year-month-day triple. -/
theorem fill_ymd (y m d : List Char) :
    fillDateParts defaultDateParts [['%', 'Y'], ['%', 'm'], ['%', 'd']] [y, m, d]
      = { fullYear := parseInt (some y), month := parseInt (some m), day := parseInt (some d),
          hour := JSNum.fin 0, minute := JSNum.fin 0, second := JSNum.fin 0,
          millisecond := JSNum.fin 0 } := by
  simp [fillDateParts, assignField, defaultDateParts]

theorem fill_mdy (y m d : List Char) :
    fillDateParts defaultDateParts [['%', 'm'], ['%', 'd'], ['%', 'Y']] [m, d, y]
      = { fullYear := parseInt (some y), month := parseInt (some m), day := parseInt (some d),
          hour := JSNum.fin 0, minute := JSNum.fin 0, second := JSNum.fin 0,
          millisecond := JSNum.fin 0 } := by
  simp [fillDateParts, assignField, defaultDateParts]

theorem parsed_ymd {Y m d : List Char} (hY : DigitString Y) (hm : DigitString m)
    (hd : DigitString d) :
    parsedDateParts (Y ++ ['-'] ++ m ++ ['-'] ++ d) "%Y-%m-%d".toList
      = some (recordOf (numberOfNat (decimalValue Y)) (numberOfNat (decimalValue m))
          (numberOfNat (decimalValue d))) := by
  have hne : matchAllPlaceholders "%Y-%m-%d".toList ≠ [] := by decide
  have hmatch := matchFirst_three hY hm hd
  rw [← patternAtoms_ymd] at hmatch
  rw [parsedDateParts_of_match hne hmatch, placeholders_ymd, fill_ymd,
    parseInt_digitString hY, parseInt_digitString hm, parseInt_digitString hd]
  rfl

theorem parsed_mdy {Y m d : List Char} (hY : DigitString Y) (hm : DigitString m)
    (hd : DigitString d) :
    parsedDateParts (m ++ ['-'] ++ d ++ ['-'] ++ Y) "%m-%d-%Y".toList
      = some (recordOf (numberOfNat (decimalValue Y)) (numberOfNat (decimalValue m))
          (numberOfNat (decimalValue d))) := by
  have hne : matchAllPlaceholders "%m-%d-%Y".toList ≠ [] := by decide
  have hmatch := matchFirst_three hm hd hY
  rw [← patternAtoms_mdy] at hmatch
  rw [parsedDateParts_of_match hne hmatch, placeholders_mdy, fill_mdy,
    parseInt_digitString hY, parseInt_digitString hm, parseInt_digitString hd]
  rfl

theorem strftime_ymd (host : Host) {Y m d : List Char} (hY : DigitString Y)
    (hm : DigitString m) (hd : DigitString d) :
    strftime_To_Date host (Y ++ ['-'] ++ m ++ ['-'] ++ d) "%Y-%m-%d".toList none
      = Except.ok (dateOfParts (recordOf (numberOfNat (decimalValue Y))
          (numberOfNat (decimalValue m)) (numberOfNat (decimalValue d)))) := by
  have hne : matchAllPlaceholders "%Y-%m-%d".toList ≠ [] := by decide
  have hmatch := matchFirst_three hY hm hd
  rw [← patternAtoms_ymd] at hmatch
  rw [strftime_To_Date_of_match hne hmatch, placeholders_ymd, fill_ymd,
    parseInt_digitString hY, parseInt_digitString hm, parseInt_digitString hd]
  rfl

theorem strftime_mdy (host : Host) {Y m d : List Char} (hY : DigitString Y)
    (hm : DigitString m) (hd : DigitString d) :
    strftime_To_Date host (m ++ ['-'] ++ d ++ ['-'] ++ Y) "%m-%d-%Y".toList none
      = Except.ok (dateOfParts (recordOf (numberOfNat (decimalValue Y))
          (numberOfNat (decimalValue m)) (numberOfNat (decimalValue d)))) := by
  have hne : matchAllPlaceholders "%m-%d-%Y".toList ≠ [] := by decide
  have hmatch := matchFirst_three hm hd hY
  rw [← patternAtoms_mdy] at hmatch
  rw [strftime_To_Date_of_match hne hmatch, placeholders_mdy, fill_mdy,
    parseInt_digitString hY, parseInt_digitString hm, parseInt_digitString hd]
  rfl

/-- C1 (as stated, refuted): for the digit string `Y = "9007199254740993"` the
parse of `Y-12-01` with `%Y-%m-%d` succeeds, but the year handed to the Date
constructor is 9007199254740992, not the decimal value of `Y`: `parseInt`
returns a double. -/
theorem C1_counterexample :
    DigitString "9007199254740993".toList ∧
    strftime_To_Date (utcHost sampleNow) "9007199254740993-12-01".toList "%Y-%m-%d".toList none
      = Except.ok { year := JSNum.fin 9007199254740992, monthIndex := JSNum.fin 11,
                    date := JSNum.fin 1, hours := JSNum.fin 0, minutes := JSNum.fin 0,
                    seconds := JSNum.fin 0, ms := JSNum.fin 0 } ∧
    decimalValue "9007199254740993".toList = 9007199254740993 ∧
    parsedDateParts "9007199254740993-12-01".toList "%Y-%m-%d".toList
      ≠ some (recordOf (JSNum.fin (decimalValue "9007199254740993".toList)) (JSNum.fin 12)
          (JSNum.fin 1)) := by
  decide

/-- C1 (amended): for all non-empty decimal digit strings `Y`, `m`, `d`, the
call `strftime_To_Date(Y-m-d, "%Y-%m-%d")` without validation config succeeds,
and the date is `new Date(fullYear, month - 1, day, 0, 0, 0, 0)` for the record
whose `fullYear`, `month`, `day` are the Numbers (doubles) nearest to the
decimal values of `Y`, `m`, `d`, the other fields being 0; the Number of a
decimal value below `2 ^ 53` is that value. -/
theorem C1_year_month_day (host : Host) (Y m d : List Char) (hY : DigitString Y)
    (hm : DigitString m) (hd : DigitString d) :
    parsedDateParts (Y ++ ['-'] ++ m ++ ['-'] ++ d) "%Y-%m-%d".toList
      = some { fullYear := numberOfNat (decimalValue Y), month := numberOfNat (decimalValue m),
               day := numberOfNat (decimalValue d), hour := JSNum.fin 0, minute := JSNum.fin 0,
               second := JSNum.fin 0, millisecond := JSNum.fin 0 } ∧
    strftime_To_Date host (Y ++ ['-'] ++ m ++ ['-'] ++ d) "%Y-%m-%d".toList none
      = Except.ok { year := numberOfNat (decimalValue Y),
                    monthIndex := (numberOfNat (decimalValue m)).sub (JSNum.fin 1),
                    date := numberOfNat (decimalValue d), hours := JSNum.fin 0,
                    minutes := JSNum.fin 0, seconds := JSNum.fin 0, ms := JSNum.fin 0 } ∧
    (∀ n : Nat, n < 2 ^ 53 → numberOfNat n = JSNum.fin n) :=
  ⟨parsed_ymd hY hm hd, strftime_ymd host hY hm hd, fun _ h => numberOfNat_of_lt h⟩

/-- C1, at the example of the specification: `"2043-12-01"` with `%Y-%m-%d`
gives the record 2043, 12, 1 and the date `new Date(2043, 11, 1, 0, 0, 0, 0)`. -/
theorem C1_year_month_day_witness :
    (DigitString "2043".toList ∧ DigitString "12".toList ∧ DigitString "01".toList) ∧
    parsedDateParts "2043-12-01".toList "%Y-%m-%d".toList
      = some { fullYear := JSNum.fin 2043, month := JSNum.fin 12, day := JSNum.fin 1,
               hour := JSNum.fin 0, minute := JSNum.fin 0, second := JSNum.fin 0,
               millisecond := JSNum.fin 0 } ∧
    strftime_To_Date (utcHost sampleNow) "2043-12-01".toList "%Y-%m-%d".toList none
      = Except.ok { year := JSNum.fin 2043, monthIndex := JSNum.fin 11, date := JSNum.fin 1,
                    hours := JSNum.fin 0, minutes := JSNum.fin 0, seconds := JSNum.fin 0,
                    ms := JSNum.fin 0 } :=
  have h := C1_year_month_day (utcHost sampleNow) "2043".toList "12".toList "01".toList
    (by decide) (by decide) (by decide)
  ⟨⟨by decide, by decide, by decide⟩, h.1.trans (by decide), h.2.1.trans (by decide)⟩

/-- C2: for all non-empty decimal digit strings `Y`, `m`, `d`, parsing `m-d-Y`
with `%m-%d-%Y` and parsing `Y-m-d` with `%Y-%m-%d` both succeed, with the same
field record and the same date. -/
theorem C2_directive_order (host : Host) (Y m d : List Char) (hY : DigitString Y)
    (hm : DigitString m) (hd : DigitString d) :
    parsedDateParts (m ++ ['-'] ++ d ++ ['-'] ++ Y) "%m-%d-%Y".toList
      = parsedDateParts (Y ++ ['-'] ++ m ++ ['-'] ++ d) "%Y-%m-%d".toList ∧
    strftime_To_Date host (m ++ ['-'] ++ d ++ ['-'] ++ Y) "%m-%d-%Y".toList none
      = strftime_To_Date host (Y ++ ['-'] ++ m ++ ['-'] ++ d) "%Y-%m-%d".toList none ∧
    (∃ dateParts, parsedDateParts (Y ++ ['-'] ++ m ++ ['-'] ++ d) "%Y-%m-%d".toList
        = some dateParts ∧
      strftime_To_Date host (Y ++ ['-'] ++ m ++ ['-'] ++ d) "%Y-%m-%d".toList none
        = Except.ok (dateOfParts dateParts)) := by
  refine ⟨?_, ?_, ⟨_, parsed_ymd hY hm hd, strftime_ymd host hY hm hd⟩⟩
  · rw [parsed_mdy hY hm hd, parsed_ymd hY hm hd]
  · rw [strftime_mdy host hY hm hd, strftime_ymd host hY hm hd]

/-- C2, at the example of the specification: `"12-01-2043"` with `%m-%d-%Y`
equals `"2043-12-01"` with `%Y-%m-%d`. -/
theorem C2_directive_order_witness :
    (DigitString "2043".toList ∧ DigitString "12".toList ∧ DigitString "01".toList) ∧
    strftime_To_Date (utcHost sampleNow) "12-01-2043".toList "%m-%d-%Y".toList none
      = strftime_To_Date (utcHost sampleNow) "2043-12-01".toList "%Y-%m-%d".toList none :=
  ⟨⟨by decide, by decide, by decide⟩,
    (C2_directive_order (utcHost sampleNow) "2043".toList "12".toList "01".toList
      (by decide) (by decide) (by decide)).2.1⟩

/-! ## Validation -/

/-- With a directive in the format and a match of the derived pattern, a
validation config sends the record through `checkSanity`. -/
theorem strftime_To_Date_of_match_config {host : Host} {ts f : List Char} {r : MatchResult}
    (config : Config) (h : matchAllPlaceholders f ≠ [])
    (hm : matchFirst (patternAtoms f) ts = some r) :
    strftime_To_Date host ts f (some config)
      = match checkSanity host (fillDateParts defaultDateParts (matchAllPlaceholders f) r.2)
          (dateOfParts (fillDateParts defaultDateParts (matchAllPlaceholders f) r.2)) config with
        | Except.error e =>
          Except.error (ExceptionHandler host e ts f
            (some { originalSource := renderPattern f, atoms := patternAtoms f }))
        | Except.ok _ =>
          Except.ok (dateOfParts (fillDateParts defaultDateParts (matchAllPlaceholders f) r.2)) := by
  simp [strftime_To_Date, buildRegexToExtractValues_some, pullValuesOutOfFormattedTime,
    RegExp.exec, hm, extractPlaceholdersAsArray_of_ne_nil h, buildDateDatastructure]

theorem checkSanity_in_range (host : Host) (dateParts : DateParts) (dateObject : DateObj)
    (config : Config) {mo dy : Int} (hmo : dateParts.month = JSNum.fin mo)
    (hmr : 1 ≤ mo ∧ mo ≤ 12) (hdy : dateParts.day = JSNum.fin dy) (hdr : 1 ≤ dy ∧ dy ≤ 31) :
    checkSanity host dateParts dateObject config
      = if config.dateIsInPast && (host.getTime dateObject).lt (JSNum.fin host.timeRightNow) then
          Except.error (Exception_Input_DateIsInFuture host dateObject)
        else if config.dateIsInFuture
            && (host.getTime dateObject).gt (JSNum.fin host.timeRightNow) then
          Except.error (Exception_Input_DateIsInPast host dateObject)
        else Except.ok () := by
  have h1 : ¬ mo < 1 := by omega
  have h2 : ¬ 12 < mo := by omega
  have h3 : ¬ dy < 1 := by omega
  have h4 : ¬ 31 < dy := by omega
  simp [checkSanity, hmo, hdy, JSNum.lt, JSNum.gt, h1, h2, h3, h4]

/-- C3 (what the code does): with `dateIsInPast` set, `dateIsInFuture` not set
and month and day in range, `checkSanity` throws the `INPUT_SANITY_FUTURE`
exception exactly when the instant of the date IS earlier than now, and passes
when it is not: the comparison is the reverse of the one the claim states. -/
theorem C3_dateIsInPast_reversed (host : Host) (dateParts : DateParts) (dateObject : DateObj)
    (mo dy : Int) (hmo : dateParts.month = JSNum.fin mo) (hmr : 1 ≤ mo ∧ mo ≤ 12)
    (hdy : dateParts.day = JSNum.fin dy) (hdr : 1 ≤ dy ∧ dy ≤ 31) :
    checkSanity host dateParts dateObject { dateIsInPast := true, dateIsInFuture := false }
      = if (host.getTime dateObject).lt (JSNum.fin host.timeRightNow) then
          Except.error (Thrown.object
            (host.toDateString dateObject ++ " is in the future. Date must be in the past.")
            "INPUT_SANITY_FUTURE")
        else Except.ok () := by
  rw [checkSanity_in_range host dateParts dateObject _ hmo hmr hdy hdr]
  simp [Exception_Input_DateIsInFuture]

/-- C3, at the example of the header comment: on 6 November 2026 the call
`strftime_To_Date('12-01-2043', '%m-%d-%Y', { dateIsInPast: true })` returns
the date 1 December 2043 and throws nothing. -/
theorem C3_dateIsInPast_reversed_witness :
    ((1 : Int) ≤ 12 ∧ (12 : Int) ≤ 12) ∧ ((1 : Int) ≤ 1 ∧ (1 : Int) ≤ 31) ∧
    utcTimeValue (dateOfParts (recordOf (JSNum.fin 2043) (JSNum.fin 12) (JSNum.fin 1)))
      = JSNum.fin 2332540800000 ∧
    sampleNow < 2332540800000 ∧
    checkSanity (utcHost sampleNow) (recordOf (JSNum.fin 2043) (JSNum.fin 12) (JSNum.fin 1))
        (dateOfParts (recordOf (JSNum.fin 2043) (JSNum.fin 12) (JSNum.fin 1)))
        { dateIsInPast := true, dateIsInFuture := false } = Except.ok () ∧
    strftime_To_Date (utcHost sampleNow) "12-01-2043".toList "%m-%d-%Y".toList
        (some { dateIsInPast := true, dateIsInFuture := false })
      = Except.ok { year := JSNum.fin 2043, monthIndex := JSNum.fin 11, date := JSNum.fin 1,
                    hours := JSNum.fin 0, minutes := JSNum.fin 0, seconds := JSNum.fin 0,
                    ms := JSNum.fin 0 } :=
  ⟨by decide, by decide, by decide, by decide,
    (C3_dateIsInPast_reversed (utcHost sampleNow)
      (recordOf (JSNum.fin 2043) (JSNum.fin 12) (JSNum.fin 1))
      (dateOfParts (recordOf (JSNum.fin 2043) (JSNum.fin 12) (JSNum.fin 1))) 12 1
      rfl (by decide) rfl (by decide)).trans (by decide),
    by decide⟩

/-- C4 (what the code does): with `dateIsInFuture` set, `dateIsInPast` not set
and month and day in range, `checkSanity` throws the `INPUT_SANITY_PAST`
exception exactly when the instant of the date IS later than now, and passes
when it is not: the comparison is the reverse of the one the claim states. -/
theorem C4_dateIsInFuture_reversed (host : Host) (dateParts : DateParts)
    (dateObject : DateObj) (mo dy : Int) (hmo : dateParts.month = JSNum.fin mo)
    (hmr : 1 ≤ mo ∧ mo ≤ 12) (hdy : dateParts.day = JSNum.fin dy) (hdr : 1 ≤ dy ∧ dy ≤ 31) :
    checkSanity host dateParts dateObject { dateIsInPast := false, dateIsInFuture := true }
      = if (host.getTime dateObject).gt (JSNum.fin host.timeRightNow) then
          Except.error (Thrown.object
            (host.toDateString dateObject ++ " is in the past. Date must be in the future.")
            "INPUT_SANITY_PAST")
        else Except.ok () := by
  rw [checkSanity_in_range host dateParts dateObject _ hmo hmr hdy hdr]
  simp [Exception_Input_DateIsInPast]

/-- C4, at a date in the future: on 6 November 2026 the call
`strftime_To_Date('12-01-2043', '%m-%d-%Y', { dateIsInFuture: true })` throws
the error of type `INPUT_SANITY_PAST`, and for the past date 1 January 2020 it
returns the date. -/
theorem C4_dateIsInFuture_reversed_witness :
    ((1 : Int) ≤ 12 ∧ (12 : Int) ≤ 12) ∧ ((1 : Int) ≤ 1 ∧ (1 : Int) ≤ 31) ∧
    utcTimeValue (dateOfParts (recordOf (JSNum.fin 2043) (JSNum.fin 12) (JSNum.fin 1)))
      = JSNum.fin 2332540800000 ∧
    sampleNow < 2332540800000 ∧
    checkSanity (utcHost sampleNow) (recordOf (JSNum.fin 2043) (JSNum.fin 12) (JSNum.fin 1))
        (dateOfParts (recordOf (JSNum.fin 2043) (JSNum.fin 12) (JSNum.fin 1)))
        { dateIsInPast := false, dateIsInFuture := true }
      = Except.error (Thrown.object "(date) is in the past. Date must be in the future."
          "INPUT_SANITY_PAST") ∧
    errorType (strftime_To_Date (utcHost sampleNow) "12-01-2043".toList "%m-%d-%Y".toList
        (some { dateIsInPast := false, dateIsInFuture := true }))
      = some (some "INPUT_SANITY_PAST") ∧
    strftime_To_Date (utcHost sampleNow) "01-01-2020".toList "%m-%d-%Y".toList
        (some { dateIsInPast := false, dateIsInFuture := true })
      = Except.ok { year := JSNum.fin 2020, monthIndex := JSNum.fin 0, date := JSNum.fin 1,
                    hours := JSNum.fin 0, minutes := JSNum.fin 0, seconds := JSNum.fin 0,
                    ms := JSNum.fin 0 } :=
  ⟨by decide, by decide, by decide, by decide,
    (C4_dateIsInFuture_reversed (utcHost sampleNow)
      (recordOf (JSNum.fin 2043) (JSNum.fin 12) (JSNum.fin 1))
      (dateOfParts (recordOf (JSNum.fin 2043) (JSNum.fin 12) (JSNum.fin 1))) 12 1
      rfl (by decide) rfl (by decide)).trans (by decide),
    by decide, by decide⟩

/-- C5 (what the code does): when the month of the record is below 1 or above
12, `checkSanity` evaluates the undeclared name `Exception_Input_InvalidMonth`,
whatever the day and the flags are; with a directive in the format and a match,
`strftime_To_Date` then throws an error whose `type` is `undefined` and whose
message is the text of the ReferenceError, not the `INPUT_SANITY_MONTH` error
of the declared function `Exception_Input_Month`. -/
theorem C5_invalid_month_reference_error (host : Host) (ts f : List Char) (r : MatchResult)
    (config : Config) (h : matchAllPlaceholders f ≠ [])
    (hm : matchFirst (patternAtoms f) ts = some r)
    (hmonth : (fillDateParts defaultDateParts (matchAllPlaceholders f) r.2).month.lt
        (JSNum.fin 1) = true
      ∨ (fillDateParts defaultDateParts (matchAllPlaceholders f) r.2).month.gt
        (JSNum.fin 12) = true) :
    strftime_To_Date host ts f (some config)
      = Except.error
          { message :=
              host.nativeMessage (NativeError.referenceError "Exception_Input_InvalidMonth")
            type := none
            debug := { timeString := ts, format := f,
                       regex := some { originalSource := renderPattern f, atoms := patternAtoms f } } } := by
  have hc : ∀ d, checkSanity host (fillDateParts defaultDateParts (matchAllPlaceholders f) r.2)
      d config
      = Except.error (Thrown.native (NativeError.referenceError "Exception_Input_InvalidMonth")) := by
    intro d
    rcases hmonth with h1 | h1 <;> simp [checkSanity, h1]
  rw [strftime_To_Date_of_match_config config h hm, hc]
  rfl

/-- C5, at the example of the specification: the call
`strftime_To_Date("13-01-2020", "%m-%d-%Y", {})` throws an error whose `type`
is `undefined`. -/
theorem C5_invalid_month_reference_error_witness :
    matchAllPlaceholders "%m-%d-%Y".toList ≠ [] ∧
    matchFirst (patternAtoms "%m-%d-%Y".toList) "13-01-2020".toList
      = some ("13-01-2020".toList, ["13".toList, "01".toList, "2020".toList]) ∧
    errorType (strftime_To_Date (utcHost sampleNow) "13-01-2020".toList "%m-%d-%Y".toList
        (some { dateIsInPast := false, dateIsInFuture := false })) = some none ∧
    strftime_To_Date (utcHost sampleNow) "13-01-2020".toList "%m-%d-%Y".toList
        (some { dateIsInPast := false, dateIsInFuture := false })
      = Except.error
          { message := "Exception_Input_InvalidMonth is not defined"
            type := none
            debug := { timeString := "13-01-2020".toList, format := "%m-%d-%Y".toList,
                       regex := some { originalSource := "(\\d+)\\-(\\d+)\\-(\\d+)".toList,
                                       atoms := [Atom.digits, Atom.char '-', Atom.digits,
                                                 Atom.char '-', Atom.digits] } } } :=
  ⟨by decide, by decide, by decide,
    (C5_invalid_month_reference_error (utcHost sampleNow) "13-01-2020".toList
      "%m-%d-%Y".toList ("13-01-2020".toList, ["13".toList, "01".toList, "2020".toList])
      { dateIsInPast := false, dateIsInFuture := false } (by decide) (by decide)
      (by decide)).trans (by decide)⟩

/-- C6 (what the code does): when the month of the record is in range and the
day is below 1 or above 31, `checkSanity` evaluates the undeclared name
`Exception_Input_InvalidDay`, whatever the flags are; with a directive in the
format and a match, `strftime_To_Date` then throws an error whose `type` is
`undefined`: no type tag for an invalid day exists in the program. -/
theorem C6_invalid_day_reference_error (host : Host) (ts f : List Char) (r : MatchResult)
    (config : Config) (mo : Int) (h : matchAllPlaceholders f ≠ [])
    (hm : matchFirst (patternAtoms f) ts = some r)
    (hmo : (fillDateParts defaultDateParts (matchAllPlaceholders f) r.2).month = JSNum.fin mo)
    (hmr : 1 ≤ mo ∧ mo ≤ 12)
    (hday : (fillDateParts defaultDateParts (matchAllPlaceholders f) r.2).day.lt
        (JSNum.fin 1) = true
      ∨ (fillDateParts defaultDateParts (matchAllPlaceholders f) r.2).day.gt
        (JSNum.fin 31) = true) :
    strftime_To_Date host ts f (some config)
      = Except.error
          { message :=
              host.nativeMessage (NativeError.referenceError "Exception_Input_InvalidDay")
            type := none
            debug := { timeString := ts, format := f,
                       regex := some { originalSource := renderPattern f, atoms := patternAtoms f } } } := by
  have h1 : ¬ mo < 1 := by omega
  have h2 : ¬ 12 < mo := by omega
  have hlt : (fillDateParts defaultDateParts (matchAllPlaceholders f) r.2).month.lt
      (JSNum.fin 1) = false := by
    rw [hmo]; simp [JSNum.lt, h1]
  have hgt : (fillDateParts defaultDateParts (matchAllPlaceholders f) r.2).month.gt
      (JSNum.fin 12) = false := by
    rw [hmo]; simp [JSNum.lt, JSNum.gt, h2]
  have hc : ∀ d, checkSanity host (fillDateParts defaultDateParts (matchAllPlaceholders f) r.2)
      d config
      = Except.error (Thrown.native (NativeError.referenceError "Exception_Input_InvalidDay")) := by
    intro d
    rcases hday with h3 | h3 <;> simp [checkSanity, hlt, hgt, h3]
  rw [strftime_To_Date_of_match_config config h hm, hc]
  rfl

/-- C6, at an input: the call `strftime_To_Date("01-45-2020", "%m-%d-%Y", {})`
throws an error whose `type` is `undefined`. -/
theorem C6_invalid_day_reference_error_witness :
    matchAllPlaceholders "%m-%d-%Y".toList ≠ [] ∧
    matchFirst (patternAtoms "%m-%d-%Y".toList) "01-45-2020".toList
      = some ("01-45-2020".toList, ["01".toList, "45".toList, "2020".toList]) ∧
    ((1 : Int) ≤ 1 ∧ (1 : Int) ≤ 12) ∧
    errorType (strftime_To_Date (utcHost sampleNow) "01-45-2020".toList "%m-%d-%Y".toList
        (some { dateIsInPast := false, dateIsInFuture := false })) = some none ∧
    strftime_To_Date (utcHost sampleNow) "01-45-2020".toList "%m-%d-%Y".toList
        (some { dateIsInPast := false, dateIsInFuture := false })
      = Except.error
          { message := "Exception_Input_InvalidDay is not defined"
            type := none
            debug := { timeString := "01-45-2020".toList, format := "%m-%d-%Y".toList,
                       regex := some { originalSource := "(\\d+)\\-(\\d+)\\-(\\d+)".toList,
                                       atoms := [Atom.digits, Atom.char '-', Atom.digits,
                                                 Atom.char '-', Atom.digits] } } } :=
  ⟨by decide, by decide, by decide, by decide,
    (C6_invalid_day_reference_error (utcHost sampleNow) "01-45-2020".toList
      "%m-%d-%Y".toList ("01-45-2020".toList, ["01".toList, "45".toList, "2020".toList])
      { dateIsInPast := false, dateIsInFuture := false } 1 (by decide) (by decide)
      (by decide) (by decide) (by decide)).trans (by decide)⟩

/-! ## Failure to match -/

theorem digits_mem_patternAtoms : ∀ (n : Nat) (f : List Char), f.length ≤ n →
    matchAllPlaceholders f ≠ [] → Atom.digits ∈ patternAtoms f
  | _, [], _, h => by simp [matchAllPlaceholders] at h
  | _, [_], _, h => by simp [matchAllPlaceholders] at h
  | 0, _ :: _ :: _, hl, _ => by simp at hl
  | n + 1, a :: b :: rest, hl, h => by
    have h1 : (b :: rest).length ≤ n := by simpa using hl
    by_cases hab : a = '%' ∧ isWordChar b = true
    · simp [patternAtoms, hab]
    · simp only [matchAllPlaceholders, hab, if_false] at h
      simp only [patternAtoms, hab, if_false]
      exact List.mem_cons_of_mem _ (digits_mem_patternAtoms n _ h1 h)

theorem matchHere_eq_none_of_no_digit : ∀ (p : List Atom) (s : List Char),
    Atom.digits ∈ p → (∀ c ∈ s, isDigit c = false) → matchHere p s = none
  | [], _, h, _ => by simp at h
  | Atom.digits :: p, s, _, hs => by
    have ht : s.takeWhile isDigit = [] := by
      cases s with
      | nil => rfl
      | cons c s => simp [List.takeWhile, hs c (List.mem_cons_self _ _)]
    simp [matchHere, ht, tryDigits]
  | Atom.char c :: p, [], _, _ => by simp [matchHere]
  | Atom.char c :: p, d :: s, h, hs => by
    have hp : Atom.digits ∈ p := by simpa using h
    have ih := matchHere_eq_none_of_no_digit p s hp
      (fun x hx => hs x (List.mem_cons_of_mem _ hx))
    by_cases hdc : d = c <;> simp [matchHere, hdc, ih]

theorem matchFirst_eq_none_of_no_digit (p : List Atom) (hp : Atom.digits ∈ p) :
    ∀ s : List Char, (∀ c ∈ s, isDigit c = false) → matchFirst p s = none
  | [], hs => by simp [matchFirst, matchHere_eq_none_of_no_digit p [] hp hs]
  | c :: s, hs => by
    simp [matchFirst, matchHere_eq_none_of_no_digit p (c :: s) hp hs,
      matchFirst_eq_none_of_no_digit p hp s (fun x hx => hs x (List.mem_cons_of_mem _ hx))]

/-- With a directive in the format, no match of the derived pattern makes the
call throw the wrapped `Exception_Parse_Value`, whatever the config is. -/
theorem strftime_To_Date_of_no_match {host : Host} {ts f : List Char}
    (config : Option Config) (h : matchAllPlaceholders f ≠ [])
    (hm : matchFirst (patternAtoms f) ts = none) :
    strftime_To_Date host ts f config
      = Except.error (ExceptionHandler host Exception_Parse_Value ts f
          (some { originalSource := renderPattern f, atoms := patternAtoms f })) := by
  simp [strftime_To_Date, buildRegexToExtractValues_some, pullValuesOutOfFormattedTime,
    RegExp.exec, hm, extractPlaceholdersAsArray_of_ne_nil h]

/-- C7: for every format with at least one directive the derived pattern `re`
exists, and for every input on which `re` has no match, at any position,
`strftime_To_Date` throws, under every config, the error of type `PARSE_VALUE`
whose debug payload holds the input as `timeString`, the format as `format` and
`re` as `regex`; an input without a decimal digit is such an input. -/
theorem C7_parse_value_error (f : List Char) (h : matchAllPlaceholders f ≠ []) :
    ∃ re : RegExp,
      buildRegexToExtractValues f (extractPlaceholdersAsArray f) = Except.ok re ∧
      (∀ (host : Host) (ts : List Char) (config : Option Config), re.exec ts = none →
        strftime_To_Date host ts f config
          = Except.error
              { message := "Error parsing values out of input. Make sure that the date conforms to the format specified."
                type := some "PARSE_VALUE"
                debug := { timeString := ts, format := f, regex := some re } }) ∧
      (∀ ts : List Char, (∀ c ∈ ts, isDigit c = false) → re.exec ts = none) := by
  refine ⟨{ originalSource := renderPattern f, atoms := patternAtoms f },
    buildRegexToExtractValues_eq f h, ?_, ?_⟩
  · intro host ts config hex
    have hm : matchFirst (patternAtoms f) ts = none := by
      simpa [RegExp.exec] using hex
    rw [strftime_To_Date_of_no_match config h hm]
    rfl
  · intro ts hts
    simp [RegExp.exec,
      matchFirst_eq_none_of_no_digit _ (digits_mem_patternAtoms f.length f (le_refl _) h) ts hts]

/-- C7, at an input: `strftime_To_Date("abc", "%Y")` throws the `PARSE_VALUE`
error with the pattern `(\d+)` in its debug payload. -/
theorem C7_parse_value_error_witness :
    matchAllPlaceholders "%Y".toList ≠ [] ∧
    strftime_To_Date (utcHost sampleNow) "abc".toList "%Y".toList none
      = Except.error
          { message := "Error parsing values out of input. Make sure that the date conforms to the format specified."
            type := some "PARSE_VALUE"
            debug := { timeString := "abc".toList, format := "%Y".toList,
                       regex := some { originalSource := "(\\d+)".toList, atoms := [Atom.digits] } } } := by
  obtain ⟨re, hre, hthrow, hnone⟩ := C7_parse_value_error "%Y".toList (by decide)
  have hval : re = { originalSource := "(\\d+)".toList, atoms := [Atom.digits] } :=
    Except.ok.inj (hre.symm.trans (by decide))
  subst hval
  exact ⟨by decide, hthrow (utcHost sampleNow) "abc".toList none (hnone "abc".toList (by decide))⟩

/-- C8: for every format with at least one directive the derived pattern `re`
exists, and without a validation config `strftime_To_Date` throws exactly when
`re` has no match in the input; when `re` matches, the call returns the date of
the record, whatever the values of its fields are. -/
theorem C8_no_config_no_validation (f : List Char) (h : matchAllPlaceholders f ≠ []) :
    ∃ re : RegExp,
      buildRegexToExtractValues f (extractPlaceholdersAsArray f) = Except.ok re ∧
      ∀ (host : Host) (ts : List Char),
        ((∃ e, strftime_To_Date host ts f none = Except.error e) ↔ re.exec ts = none) ∧
        (re.exec ts ≠ none → ∃ dateParts, parsedDateParts ts f = some dateParts ∧
          strftime_To_Date host ts f none = Except.ok (dateOfParts dateParts)) := by
  refine ⟨{ originalSource := renderPattern f, atoms := patternAtoms f },
    buildRegexToExtractValues_eq f h, ?_⟩
  intro host ts
  cases hm : matchFirst (patternAtoms f) ts with
  | none =>
    have hex : RegExp.exec { originalSource := renderPattern f, atoms := patternAtoms f } ts = none := by
      simp [RegExp.exec, hm]
    refine ⟨⟨fun _ => hex, fun _ => ⟨_, strftime_To_Date_of_no_match none h hm⟩⟩, ?_⟩
    intro hne; exact absurd hex hne
  | some r =>
    have hex : RegExp.exec { originalSource := renderPattern f, atoms := patternAtoms f } ts ≠ none := by
      simp [RegExp.exec, hm]
    refine ⟨⟨?_, fun hn => absurd hn hex⟩,
      fun _ => ⟨_, parsedDateParts_of_match h hm, strftime_To_Date_of_match h hm⟩⟩
    rintro ⟨e, he⟩
    rw [strftime_To_Date_of_match h hm] at he
    exact absurd he (by simp)

/-- C8, at the example: `strftime_To_Date("13-45-2020", "%m-%d-%Y")` returns
the date of the record with month 13 and day 45. -/
theorem C8_no_config_no_validation_witness :
    matchAllPlaceholders "%m-%d-%Y".toList ≠ [] ∧
    parsedDateParts "13-45-2020".toList "%m-%d-%Y".toList
      = some (recordOf (JSNum.fin 2020) (JSNum.fin 13) (JSNum.fin 45)) ∧
    strftime_To_Date (utcHost sampleNow) "13-45-2020".toList "%m-%d-%Y".toList none
      = Except.ok (dateOfParts (recordOf (JSNum.fin 2020) (JSNum.fin 13) (JSNum.fin 45))) := by
  obtain ⟨re, hre, hall⟩ := C8_no_config_no_validation "%m-%d-%Y".toList (by decide)
  have hval : re = RegExp.mk "(\\d+)\\-(\\d+)\\-(\\d+)".toList
      [Atom.digits, Atom.char '-', Atom.digits, Atom.char '-', Atom.digits] :=
    Except.ok.inj (hre.symm.trans (by decide))
  subst hval
  obtain ⟨dateParts, hparts, hdate⟩ :=
    (hall (utcHost sampleNow) "13-45-2020".toList).2 (by decide)
  have hrec : dateParts = recordOf (JSNum.fin 2020) (JSNum.fin 13) (JSNum.fin 45) :=
    Option.some.inj (hparts.symm.trans (by decide))
  subst hrec
  exact ⟨by decide, hparts, hdate⟩

/-! ## Formats without a directive -/

/-- C9 (what the code does): for a format without any directive the extractor
returns `null`, not an empty array, and `strftime_To_Date` throws, on every
input and under every config, the wrapped TypeError of reading `length` of
`null`: its `type` is `undefined` and its `regex` is `undefined`.  No baseline
date is produced. -/
theorem C9_no_directive_type_error (host : Host) (ts f : List Char) (config : Option Config)
    (h : matchAllPlaceholders f = []) :
    extractPlaceholdersAsArray f = none ∧
    strftime_To_Date host ts f config
      = Except.error
          { message := host.nativeMessage NativeError.typeError
            type := none
            debug := { timeString := ts, format := f, regex := none } } := by
  have he : extractPlaceholdersAsArray f = none := by
    simp [extractPlaceholdersAsArray, h]
  refine ⟨he, ?_⟩
  simp [strftime_To_Date, he, buildRegexToExtractValues, ExceptionHandler, Thrown.message,
    Thrown.type]

/-- C9, at an input: `strftime_To_Date("abc", "abc")` throws an error without
`type` and without `regex`, although the input contains the literal text of the
format. -/
theorem C9_no_directive_type_error_witness :
    matchAllPlaceholders "abc".toList = [] ∧
    extractPlaceholdersAsArray "abc".toList = none ∧
    strftime_To_Date (utcHost sampleNow) "abc".toList "abc".toList none
      = Except.error
          { message := "Cannot read properties of null (reading 'length')"
            type := none
            debug := { timeString := "abc".toList, format := "abc".toList, regex := none } } :=
  ⟨by decide,
    (C9_no_directive_type_error (utcHost sampleNow) "abc".toList "abc".toList none
      (by decide)).1,
    (C9_no_directive_type_error (utcHost sampleNow) "abc".toList "abc".toList none
      (by decide)).2⟩

/-! ## The record -/

/-- A field that the assignments of the tokens outside `touching` leave alone
is left alone by the whole loop when no placeholder is in `touching`. -/
theorem fillDateParts_frame (field : DateParts → JSNum) (touching : List (List Char))
    (hstep : ∀ (dP : DateParts) (p : List Char) (v : JSNum), p ∉ touching →
      field (assignField dP p v) = field dP) :
    ∀ (placeHolders values : List (List Char)) (dP : DateParts),
      (∀ p ∈ placeHolders, p ∉ touching) →
      field (fillDateParts dP placeHolders values) = field dP
  | [], _, _, _ => rfl
  | p :: rest, values, dP, h => by
    simp only [fillDateParts]
    rw [fillDateParts_frame field touching hstep rest values.tail _
      (fun q hq => h q (List.mem_cons_of_mem _ hq))]
    exact hstep dP p _ (h p (List.mem_cons_self _ _))

theorem assignField_fullYear (dP : DateParts) (p : List Char) (v : JSNum)
    (h : p ∉ [['%', 'Y'], ['%', 'y']]) : (assignField dP p v).fullYear = dP.fullYear := by
  simp only [List.mem_cons, List.mem_singleton, List.not_mem_nil, or_false, not_or] at h
  unfold assignField
  split_ifs <;> simp_all

theorem assignField_month (dP : DateParts) (p : List Char) (v : JSNum)
    (h : p ∉ [['%', 'm']]) : (assignField dP p v).month = dP.month := by
  simp only [List.mem_singleton] at h
  unfold assignField
  split_ifs <;> simp_all

theorem assignField_day (dP : DateParts) (p : List Char) (v : JSNum)
    (h : p ∉ [['%', 'd']]) : (assignField dP p v).day = dP.day := by
  simp only [List.mem_singleton] at h
  unfold assignField
  split_ifs <;> simp_all

theorem assignField_hour (dP : DateParts) (p : List Char) (v : JSNum)
    (h : p ∉ [['%', 'h']]) : (assignField dP p v).hour = dP.hour := by
  simp only [List.mem_singleton] at h
  unfold assignField
  split_ifs <;> simp_all

theorem assignField_minute (dP : DateParts) (p : List Char) (v : JSNum)
    (h : p ∉ [['%', 'M']]) : (assignField dP p v).minute = dP.minute := by
  simp only [List.mem_singleton] at h
  unfold assignField
  split_ifs <;> simp_all

theorem assignField_second (dP : DateParts) (p : List Char) (v : JSNum)
    (h : p ∉ [['%', 'S']]) : (assignField dP p v).second = dP.second := by
  simp only [List.mem_singleton] at h
  unfold assignField
  split_ifs <;> simp_all

theorem assignField_millisecond (dP : DateParts) (p : List Char) (v : JSNum)
    (h : p ∉ [['%', 'L']]) : (assignField dP p v).millisecond = dP.millisecond := by
  simp only [List.mem_singleton] at h
  unfold assignField
  split_ifs <;> simp_all

theorem not_mem_singleton_of_not_mem {t : List Char} {l : List (List Char)} (h : t ∉ l) :
    ∀ p ∈ l, p ∉ [t] := by
  intro p hp hpt
  rw [List.mem_singleton] at hpt
  exact h (hpt ▸ hp)

/-- C10: for every directive sequence and every sequence of captured values
(of any length), `buildDateDatastructure` returns a record in which each field
whose directive does not occur in the sequence has its default: `fullYear` 0
when neither `%Y` nor `%y` occurs, `month` 1 without `%m`, `day` 1 without
`%d`, `hour` 0 without `%h`, `minute` 0 without `%M`, `second` 0 without `%S`,
`millisecond` 0 without `%L`. -/
theorem C10_absent_directive_keeps_default (placeHolders values : List (List Char)) :
    ∃ dP : DateParts,
      buildDateDatastructure (some placeHolders) values = Except.ok dP ∧
      (['%', 'Y'] ∉ placeHolders → ['%', 'y'] ∉ placeHolders → dP.fullYear = JSNum.fin 0) ∧
      (['%', 'm'] ∉ placeHolders → dP.month = JSNum.fin 1) ∧
      (['%', 'd'] ∉ placeHolders → dP.day = JSNum.fin 1) ∧
      (['%', 'h'] ∉ placeHolders → dP.hour = JSNum.fin 0) ∧
      (['%', 'M'] ∉ placeHolders → dP.minute = JSNum.fin 0) ∧
      (['%', 'S'] ∉ placeHolders → dP.second = JSNum.fin 0) ∧
      (['%', 'L'] ∉ placeHolders → dP.millisecond = JSNum.fin 0) := by
  refine ⟨fillDateParts defaultDateParts placeHolders values, rfl, ?_, ?_, ?_, ?_, ?_, ?_, ?_⟩
  · intro h1 h2
    refine fillDateParts_frame DateParts.fullYear _ assignField_fullYear placeHolders values
      defaultDateParts ?_
    intro p hp hmem
    simp only [List.mem_cons, List.mem_singleton, List.not_mem_nil, or_false] at hmem
    rcases hmem with rfl | rfl
    · exact h1 hp
    · exact h2 hp
  · intro h
    exact fillDateParts_frame DateParts.month _ assignField_month placeHolders values
      defaultDateParts (not_mem_singleton_of_not_mem h)
  · intro h
    exact fillDateParts_frame DateParts.day _ assignField_day placeHolders values
      defaultDateParts (not_mem_singleton_of_not_mem h)
  · intro h
    exact fillDateParts_frame DateParts.hour _ assignField_hour placeHolders values
      defaultDateParts (not_mem_singleton_of_not_mem h)
  · intro h
    exact fillDateParts_frame DateParts.minute _ assignField_minute placeHolders values
      defaultDateParts (not_mem_singleton_of_not_mem h)
  · intro h
    exact fillDateParts_frame DateParts.second _ assignField_second placeHolders values
      defaultDateParts (not_mem_singleton_of_not_mem h)
  · intro h
    exact fillDateParts_frame DateParts.millisecond _ assignField_millisecond placeHolders
      values defaultDateParts (not_mem_singleton_of_not_mem h)

/-- C10, at the example of the specification: `strftime_To_Date("2020", "%Y")`
gives the record with `fullYear` 2020, `month` 1, `day` 1 and the time fields
0, and the date `new Date(2020, 0, 1, 0, 0, 0, 0)`. -/
theorem C10_absent_directive_keeps_default_witness :
    (∃ dP : DateParts,
      buildDateDatastructure (some [['%', 'Y']]) ["2020".toList] = Except.ok dP ∧
      dP.month = JSNum.fin 1 ∧ dP.day = JSNum.fin 1 ∧ dP.hour = JSNum.fin 0 ∧
      dP.minute = JSNum.fin 0 ∧ dP.second = JSNum.fin 0 ∧ dP.millisecond = JSNum.fin 0) ∧
    parsedDateParts "2020".toList "%Y".toList
      = some (recordOf (JSNum.fin 2020) (JSNum.fin 1) (JSNum.fin 1)) ∧
    strftime_To_Date (utcHost sampleNow) "2020".toList "%Y".toList none
      = Except.ok { year := JSNum.fin 2020, monthIndex := JSNum.fin 0, date := JSNum.fin 1,
                    hours := JSNum.fin 0, minutes := JSNum.fin 0, seconds := JSNum.fin 0,
                    ms := JSNum.fin 0 } := by
  obtain ⟨dP, hb, _, hm, hd, hh, hmi, hs, hl⟩ :=
    C10_absent_directive_keeps_default [['%', 'Y']] ["2020".toList]
  exact ⟨⟨dP, hb, hm (by decide), hd (by decide), hh (by decide), hmi (by decide),
    hs (by decide), hl (by decide)⟩, by decide, by decide⟩

/-! ## A single directive -/

/-- The group `(\d+)` alone matches a non-empty string of digits as a whole. -/
theorem matchFirst_digits {s : List Char} (hs : DigitString s) :
    matchFirst [Atom.digits] s = some (s, [s]) := by
  have hnil : ∀ x : Char, ([] : List Char).head? = some x → isDigit x = false := by
    intro x hx; simp at hx
  have h := matchHere_digits (r := ([], [])) (p := []) hs hnil (by simp [matchHere])
  simp only [List.append_nil] at h
  exact matchFirst_of_matchHere h

/-- The record of a format that is one token `%c`, on a non-empty string of
digits: the one assignment of the token with the parsed string. -/
theorem parsed_single {s : List Char} (hs : DigitString s) (c : Char)
    (hc : isWordChar c = true) :
    parsedDateParts s ['%', c]
      = some (assignField defaultDateParts ['%', c] (numberOfNat (decimalValue s))) := by
  have htok : matchAllPlaceholders ['%', c] = [['%', c]] := by
    simp [matchAllPlaceholders, hc]
  have hat : patternAtoms ['%', c] = [Atom.digits] := by
    simp [patternAtoms, hc]
  have hne : matchAllPlaceholders ['%', c] ≠ [] := by rw [htok]; simp
  have hm : matchFirst (patternAtoms ['%', c]) s = some (s, [s]) := by
    rw [hat]; exact matchFirst_digits hs
  rw [parsedDateParts_of_match hne hm, htok]
  simp [fillDateParts, parseInt_digitString hs]

theorem add_2000_of_lt {n : Nat} (h : n < 100) :
    (numberOfNat n).add (JSNum.fin 2000) = JSNum.fin ((n + 2000 : Nat) : Int) := by
  have h1 : n < 2 ^ 53 := lt_of_lt_of_le h (by decide)
  have h2 : n + 2000 < 2 ^ 53 := by
    have : (2100 : Nat) ≤ 2 ^ 53 := by decide
    omega
  rw [numberOfNat_of_lt h1]
  show JSNum.ofInt ((n : Int) + 2000) = _
  have : ((n : Int) + 2000) = Int.ofNat (n + 2000) := by simp
  rw [this]
  show numberOfNat (n + 2000) = _
  exact numberOfNat_of_lt h2

/-- C11 (as stated, refuted): `n = 9007199254740993` with the rendering
`"9007199254740993"` and the directive `%Y` stores 9007199254740992, which
does not re-format to `n`. -/
theorem C11_counterexample :
    DigitString "9007199254740993".toList ∧
    decimalValue "9007199254740993".toList = 9007199254740993 ∧
    parsedDateParts "9007199254740993".toList "%Y".toList
      = some (recordOf (JSNum.fin 9007199254740992) (JSNum.fin 1) (JSNum.fin 1)) ∧
    parsedDateParts "9007199254740993".toList "%Y".toList
      ≠ some (recordOf (JSNum.fin 9007199254740993) (JSNum.fin 1) (JSNum.fin 1)) := by
  decide

/-- C11 (amended): for each of the eight directives and every non-empty string
`s` of decimal digits (zero-padded or not) with value `n`, parsing `s` with the
directive alone succeeds and stores, in the field of the directive, the Number
nearest to `n`, the other fields keeping their defaults; for `%y` and `n < 100`
it stores `n + 2000`, whose last two digits are `n`.  The Number nearest to a
value below `2 ^ 53` is that value. -/
theorem C11_single_directive_round_trip (s : List Char) (hs : DigitString s) :
    parsedDateParts s "%Y".toList
      = some { defaultDateParts with fullYear := numberOfNat (decimalValue s) } ∧
    (decimalValue s < 100 →
      parsedDateParts s "%y".toList
        = some { defaultDateParts with fullYear := JSNum.fin ((decimalValue s + 2000 : Nat) : Int) }
      ∧ (decimalValue s + 2000) % 100 = decimalValue s) ∧
    parsedDateParts s "%m".toList
      = some { defaultDateParts with month := numberOfNat (decimalValue s) } ∧
    parsedDateParts s "%d".toList
      = some { defaultDateParts with day := numberOfNat (decimalValue s) } ∧
    parsedDateParts s "%h".toList
      = some { defaultDateParts with hour := numberOfNat (decimalValue s) } ∧
    parsedDateParts s "%M".toList
      = some { defaultDateParts with minute := numberOfNat (decimalValue s) } ∧
    parsedDateParts s "%S".toList
      = some { defaultDateParts with second := numberOfNat (decimalValue s) } ∧
    parsedDateParts s "%L".toList
      = some { defaultDateParts with millisecond := numberOfNat (decimalValue s) } ∧
    (∀ n : Nat, n < 2 ^ 53 → numberOfNat n = JSNum.fin n) := by
  refine ⟨?_, ?_, ?_, ?_, ?_, ?_, ?_, ?_, fun _ h => numberOfNat_of_lt h⟩
  · exact (parsed_single hs 'Y' (by decide)).trans (by simp [assignField])
  · intro hlt
    refine ⟨?_, by omega⟩
    refine (parsed_single hs 'y' (by decide)).trans ?_
    simp [assignField, add_2000_of_lt hlt]
  · exact (parsed_single hs 'm' (by decide)).trans (by simp [assignField])
  · exact (parsed_single hs 'd' (by decide)).trans (by simp [assignField])
  · exact (parsed_single hs 'h' (by decide)).trans (by simp [assignField])
  · exact (parsed_single hs 'M' (by decide)).trans (by simp [assignField])
  · exact (parsed_single hs 'S' (by decide)).trans (by simp [assignField])
  · exact (parsed_single hs 'L' (by decide)).trans (by simp [assignField])

/-- C11, at zero-padded renderings: `"08"` with `%m` stores month 8 and `"08"`
with `%y` stores the year 2008. -/
theorem C11_single_directive_round_trip_witness :
    DigitString "08".toList ∧ decimalValue "08".toList < 100 ∧
    parsedDateParts "08".toList "%m".toList
      = some (recordOf (JSNum.fin 0) (JSNum.fin 8) (JSNum.fin 1)) ∧
    parsedDateParts "08".toList "%y".toList
      = some (recordOf (JSNum.fin 2008) (JSNum.fin 1) (JSNum.fin 1)) :=
  have h := C11_single_directive_round_trip "08".toList (by decide)
  ⟨by decide, by decide, h.2.2.1.trans (by decide), (h.2.1 (by decide)).1.trans (by decide)⟩

/-! ## Text around the date -/

theorem matchHere_digits_of_not_isDigit (p : List Atom) (c : Char) (s : List Char)
    (hc : isDigit c = false) : matchHere (Atom.digits :: p) (c :: s) = none := by
  simp [matchHere, List.takeWhile, hc, tryDigits]

/-- A pattern that starts with `(\d+)` cannot match at a character that is not
a digit, so the search moves past a text without digits. -/
theorem matchFirst_skip (p : List Atom) :
    ∀ (pre s : List Char), (∀ c ∈ pre, isDigit c = false) →
      matchFirst (Atom.digits :: p) (pre ++ s) = matchFirst (Atom.digits :: p) s
  | [], _, _ => rfl
  | c :: pre, s, h => by
    have hc := h c (List.mem_cons_self _ _)
    have ih := matchFirst_skip p pre s (fun x hx => h x (List.mem_cons_of_mem _ hx))
    simp [matchFirst, matchHere_digits_of_not_isDigit p c (pre ++ s) hc, ih]

/-- Three runs of digits separated by hyphens and followed by a text that does
not start with a digit are matched by `(\d+)\-(\d+)\-(\d+)`, each group taking
a whole run. -/
theorem matchHere_three_then {a b c suf : List Char} (ha : DigitString a) (hb : DigitString b)
    (hc : DigitString c) (hsuf : ∀ x, suf.head? = some x → isDigit x = false) :
    matchHere [Atom.digits, Atom.char '-', Atom.digits, Atom.char '-', Atom.digits]
        (a ++ '-' :: (b ++ '-' :: (c ++ suf)))
      = some (a ++ '-' :: (b ++ '-' :: (c ++ [])), [a, b, c]) := by
  have hdash : ∀ (s : List Char) (x : Char), ('-' :: s).head? = some x → isDigit x = false := by
    intro s x hx
    simp at hx; subst hx; decide
  have h3 : matchHere [Atom.digits] (c ++ suf) = some (c ++ [], [c]) :=
    matchHere_digits (r := ([], [])) hc hsuf (by simp [matchHere])
  have h2 : matchHere [Atom.digits, Atom.char '-', Atom.digits] (b ++ '-' :: (c ++ suf))
      = some (b ++ '-' :: (c ++ []), [b, c]) :=
    matchHere_digits hb (hdash _) (by rw [matchHere_char, h3]; rfl)
  exact matchHere_digits ha (hdash _) (by rw [matchHere_char, h2]; rfl)

theorem matchFirst_three_around {a b c pre suf : List Char} (ha : DigitString a)
    (hb : DigitString b) (hc : DigitString c) (hpre : ∀ x ∈ pre, isDigit x = false)
    (hsuf : ∀ x, suf.head? = some x → isDigit x = false) :
    matchFirst [Atom.digits, Atom.char '-', Atom.digits, Atom.char '-', Atom.digits]
        (pre ++ a ++ ['-'] ++ b ++ ['-'] ++ c ++ suf)
      = some (a ++ '-' :: (b ++ '-' :: (c ++ [])), [a, b, c]) := by
  have hs : pre ++ a ++ ['-'] ++ b ++ ['-'] ++ c ++ suf
      = pre ++ (a ++ '-' :: (b ++ '-' :: (c ++ suf))) := by simp
  rw [hs, matchFirst_skip _ pre _ hpre]
  exact matchFirst_of_matchHere (matchHere_three_then ha hb hc hsuf)

/-- C12: for all non-empty decimal digit strings `Y`, `m`, `d`, every text
`pre` without a decimal digit and every text `suf` that does not begin with a
decimal digit, parsing `pre + Y-m-d + suf` with `%Y-%m-%d` succeeds and gives
the same field record and the same date as parsing `Y-m-d` alone. -/
theorem C12_pattern_not_anchored (host : Host) (Y m d pre suf : List Char)
    (hY : DigitString Y) (hm : DigitString m) (hd : DigitString d)
    (hpre : ∀ x ∈ pre, isDigit x = false)
    (hsuf : ∀ x, suf.head? = some x → isDigit x = false) :
    parsedDateParts (pre ++ Y ++ ['-'] ++ m ++ ['-'] ++ d ++ suf) "%Y-%m-%d".toList
      = parsedDateParts (Y ++ ['-'] ++ m ++ ['-'] ++ d) "%Y-%m-%d".toList ∧
    strftime_To_Date host (pre ++ Y ++ ['-'] ++ m ++ ['-'] ++ d ++ suf) "%Y-%m-%d".toList none
      = strftime_To_Date host (Y ++ ['-'] ++ m ++ ['-'] ++ d) "%Y-%m-%d".toList none ∧
    (∃ dateParts,
      parsedDateParts (pre ++ Y ++ ['-'] ++ m ++ ['-'] ++ d ++ suf) "%Y-%m-%d".toList
        = some dateParts ∧
      strftime_To_Date host (pre ++ Y ++ ['-'] ++ m ++ ['-'] ++ d ++ suf) "%Y-%m-%d".toList
        none = Except.ok (dateOfParts dateParts)) := by
  have hne : matchAllPlaceholders "%Y-%m-%d".toList ≠ [] := by decide
  have h1 := matchFirst_three_around hY hm hd hpre hsuf
  have h2 := matchFirst_three hY hm hd
  rw [← patternAtoms_ymd] at h1 h2
  refine ⟨?_, ?_, ⟨_, parsedDateParts_of_match hne h1, strftime_To_Date_of_match hne h1⟩⟩
  · rw [parsedDateParts_of_match hne h1, parsedDateParts_of_match hne h2]
  · rw [strftime_To_Date_of_match hne h1, strftime_To_Date_of_match hne h2]

/-- C12, at an input: `"on 2043-12-01, noon"` parses like `"2043-12-01"`. -/
theorem C12_pattern_not_anchored_witness :
    (DigitString "2043".toList ∧ DigitString "12".toList ∧ DigitString "01".toList) ∧
    (∀ x ∈ "on ".toList, isDigit x = false) ∧
    (∀ x, ", noon".toList.head? = some x → isDigit x = false) ∧
    parsedDateParts "on 2043-12-01, noon".toList "%Y-%m-%d".toList
      = parsedDateParts "2043-12-01".toList "%Y-%m-%d".toList ∧
    strftime_To_Date (utcHost sampleNow) "on 2043-12-01, noon".toList "%Y-%m-%d".toList none
      = Except.ok { year := JSNum.fin 2043, monthIndex := JSNum.fin 11, date := JSNum.fin 1,
                    hours := JSNum.fin 0, minutes := JSNum.fin 0, seconds := JSNum.fin 0,
                    ms := JSNum.fin 0 } :=
  have h := C12_pattern_not_anchored (utcHost sampleNow) "2043".toList "12".toList "01".toList
    "on ".toList ", noon".toList (by decide) (by decide) (by decide) (by decide) (by decide)
  ⟨⟨by decide, by decide, by decide⟩, by decide, by decide, h.1, h.2.1.trans (by decide)⟩

/-! ## The errors of a call -/

theorem checkSanity_error_type (host : Host) (dateParts : DateParts) (dateObject : DateObj)
    (config : Config) (e : Thrown)
    (h : checkSanity host dateParts dateObject config = Except.error e) :
    e.type = none ∨ e.type = some "INPUT_SANITY_FUTURE" ∨ e.type = some "INPUT_SANITY_PAST" := by
  unfold checkSanity at h
  simp only [] at h
  split_ifs at h
  · cases h; exact Or.inl rfl
  · cases h; exact Or.inl rfl
  · cases h; exact Or.inr (Or.inl rfl)
  · cases h; exact Or.inr (Or.inr rfl)

/-- C13 (what the code does): every error thrown by `strftime_To_Date` has a
message and a debug payload with the input string and the format string, but
its `type` is one of `PARSE_VALUE`, `INPUT_SANITY_FUTURE`, `INPUT_SANITY_PAST`
or `undefined`, and its `regex` is `undefined` exactly for a format without
directive: the tags `INPUT_SANITY_MONTH` and a tag for the day are never
produced. -/
theorem C13_error_shape (host : Host) (ts f : List Char) (config : Option Config)
    (e : StructuredError) (h : strftime_To_Date host ts f config = Except.error e) :
    e.debug.timeString = ts ∧ e.debug.format = f ∧
    (e.type = none ∨ e.type = some "PARSE_VALUE" ∨ e.type = some "INPUT_SANITY_FUTURE"
      ∨ e.type = some "INPUT_SANITY_PAST") ∧
    (e.debug.regex = none ↔ matchAllPlaceholders f = []) ∧
    (matchAllPlaceholders f = [] → e.type = none) := by
  by_cases hf : matchAllPlaceholders f = []
  · have he : extractPlaceholdersAsArray f = none := by
      simp [extractPlaceholdersAsArray, hf]
    simp [strftime_To_Date, he, buildRegexToExtractValues, ExceptionHandler, Thrown.message,
      Thrown.type] at h
    subst h
    simp [hf]
  · cases hm : matchFirst (patternAtoms f) ts with
    | none =>
      rw [strftime_To_Date_of_no_match config hf hm] at h
      cases h
      simp [ExceptionHandler, Exception_Parse_Value, Thrown.type, hf]
    | some r =>
      cases config with
      | none =>
        rw [strftime_To_Date_of_match hf hm] at h
        cases h
      | some c =>
        rw [strftime_To_Date_of_match_config c hf hm] at h
        cases hc : checkSanity host
            (fillDateParts defaultDateParts (matchAllPlaceholders f) r.2)
            (dateOfParts (fillDateParts defaultDateParts (matchAllPlaceholders f) r.2)) c with
        | ok u =>
          rw [hc] at h
          cases h
        | error t =>
          rw [hc] at h
          cases h
          have ht := checkSanity_error_type _ _ _ _ _ hc
          refine ⟨rfl, rfl, ?_, by simp [ExceptionHandler, hf], fun h0 => absurd h0 hf⟩
          rcases ht with ht | ht | ht
          · exact Or.inl ht
          · exact Or.inr (Or.inr (Or.inl ht))
          · exact Or.inr (Or.inr (Or.inr ht))

/-- C13, at three inputs: the call `("abc", "abc")` throws an error with the
input and the format in its debug payload, but without `type` and without
`regex`; the calls `("13-01-2020", "%m-%d-%Y", {})` and
`("01-45-2020", "%m-%d-%Y", {})` throw errors whose `type` is `undefined`. -/
theorem C13_error_shape_witness :
    strftime_To_Date (utcHost sampleNow) "abc".toList "abc".toList none
      = Except.error sampleTypeError ∧
    sampleTypeError.debug.timeString = "abc".toList ∧
    sampleTypeError.debug.format = "abc".toList ∧
    sampleTypeError.debug.regex = none ∧
    sampleTypeError.type = none ∧
    errorType (strftime_To_Date (utcHost sampleNow) "13-01-2020".toList "%m-%d-%Y".toList
        (some { dateIsInPast := false, dateIsInFuture := false })) = some none ∧
    errorType (strftime_To_Date (utcHost sampleNow) "01-45-2020".toList "%m-%d-%Y".toList
        (some { dateIsInPast := false, dateIsInFuture := false })) = some none :=
  have hthrow : strftime_To_Date (utcHost sampleNow) "abc".toList "abc".toList none
      = Except.error sampleTypeError := by decide
  have h := C13_error_shape (utcHost sampleNow) "abc".toList "abc".toList none
    sampleTypeError hthrow
  ⟨hthrow, h.1, h.2.1, h.2.2.2.1.mpr (by decide), h.2.2.2.2 (by decide), by decide, by decide⟩

/-! ## The checks of the validator -/

/-- C15: with a validation config in which neither `dateIsInPast` nor
`dateIsInFuture` is set, `checkSanity` throws nothing for every record with
month in [1,12] and day in [1,31], for every date object and every clock;
the day is not compared with the length of the month. -/
theorem C15_only_range_checks (host : Host) (dateParts : DateParts) (dateObject : DateObj)
    (mo dy : Int) (hmo : dateParts.month = JSNum.fin mo) (hmr : 1 ≤ mo ∧ mo ≤ 12)
    (hdy : dateParts.day = JSNum.fin dy) (hdr : 1 ≤ dy ∧ dy ≤ 31) :
    checkSanity host dateParts dateObject { dateIsInPast := false, dateIsInFuture := false }
      = Except.ok () := by
  rw [checkSanity_in_range host dateParts dateObject _ hmo hmr hdy hdr]
  simp

/-- C15, at 31 February: `checkSanity` passes, and the call
`strftime_To_Date("02-31-2020", "%m-%d-%Y", {})` returns the date
`new Date(2020, 1, 31, 0, 0, 0, 0)`. -/
theorem C15_only_range_checks_witness :
    ((1 : Int) ≤ 2 ∧ (2 : Int) ≤ 12) ∧ ((1 : Int) ≤ 31 ∧ (31 : Int) ≤ 31) ∧
    checkSanity (utcHost sampleNow) (recordOf (JSNum.fin 2020) (JSNum.fin 2) (JSNum.fin 31))
        (dateOfParts (recordOf (JSNum.fin 2020) (JSNum.fin 2) (JSNum.fin 31)))
        { dateIsInPast := false, dateIsInFuture := false } = Except.ok () ∧
    strftime_To_Date (utcHost sampleNow) "02-31-2020".toList "%m-%d-%Y".toList
        (some { dateIsInPast := false, dateIsInFuture := false })
      = Except.ok { year := JSNum.fin 2020, monthIndex := JSNum.fin 1, date := JSNum.fin 31,
                    hours := JSNum.fin 0, minutes := JSNum.fin 0, seconds := JSNum.fin 0,
                    ms := JSNum.fin 0 } :=
  ⟨by decide, by decide,
    C15_only_range_checks (utcHost sampleNow)
      (recordOf (JSNum.fin 2020) (JSNum.fin 2) (JSNum.fin 31))
      (dateOfParts (recordOf (JSNum.fin 2020) (JSNum.fin 2) (JSNum.fin 31))) 2 31
      rfl (by decide) rfl (by decide),
    by decide⟩

/-- C19 (what the code does): with both flags set and month and day in range,
`checkSanity` throws `INPUT_SANITY_FUTURE` when the instant of the date is
earlier than now, `INPUT_SANITY_PAST` when it is later than now, and passes
when it is neither (the instant equals now, or the date is invalid): the two
kinds are exchanged with respect to the claim, and a date passes. -/
theorem C19_both_flags (host : Host) (dateParts : DateParts) (dateObject : DateObj)
    (mo dy : Int) (hmo : dateParts.month = JSNum.fin mo) (hmr : 1 ≤ mo ∧ mo ≤ 12)
    (hdy : dateParts.day = JSNum.fin dy) (hdr : 1 ≤ dy ∧ dy ≤ 31) :
    checkSanity host dateParts dateObject { dateIsInPast := true, dateIsInFuture := true }
      = if (host.getTime dateObject).lt (JSNum.fin host.timeRightNow) then
          Except.error (Thrown.object
            (host.toDateString dateObject ++ " is in the future. Date must be in the past.")
            "INPUT_SANITY_FUTURE")
        else if (host.getTime dateObject).gt (JSNum.fin host.timeRightNow) then
          Except.error (Thrown.object
            (host.toDateString dateObject ++ " is in the past. Date must be in the future.")
            "INPUT_SANITY_PAST")
        else Except.ok () := by
  rw [checkSanity_in_range host dateParts dateObject _ hmo hmr hdy hdr]
  simp [Exception_Input_DateIsInFuture, Exception_Input_DateIsInPast]

/-- C19, at 1 December 2043 with both flags set: on 6 November 2026 the date,
which is not earlier than now, is rejected with `INPUT_SANITY_PAST`, and when
the clock reads exactly the instant of the date the call returns the date. -/
theorem C19_both_flags_witness :
    ((1 : Int) ≤ 12 ∧ (12 : Int) ≤ 12) ∧ ((1 : Int) ≤ 1 ∧ (1 : Int) ≤ 31) ∧
    utcTimeValue (dateOfParts (recordOf (JSNum.fin 2043) (JSNum.fin 12) (JSNum.fin 1)))
      = JSNum.fin 2332540800000 ∧
    sampleNow < 2332540800000 ∧
    checkSanity (utcHost sampleNow) (recordOf (JSNum.fin 2043) (JSNum.fin 12) (JSNum.fin 1))
        (dateOfParts (recordOf (JSNum.fin 2043) (JSNum.fin 12) (JSNum.fin 1)))
        { dateIsInPast := true, dateIsInFuture := true }
      = Except.error (Thrown.object "(date) is in the past. Date must be in the future."
          "INPUT_SANITY_PAST") ∧
    errorType (strftime_To_Date (utcHost sampleNow) "12-01-2043".toList "%m-%d-%Y".toList
        (some { dateIsInPast := true, dateIsInFuture := true }))
      = some (some "INPUT_SANITY_PAST") ∧
    strftime_To_Date (utcHost 2332540800000) "12-01-2043".toList "%m-%d-%Y".toList
        (some { dateIsInPast := true, dateIsInFuture := true })
      = Except.ok { year := JSNum.fin 2043, monthIndex := JSNum.fin 11, date := JSNum.fin 1,
                    hours := JSNum.fin 0, minutes := JSNum.fin 0, seconds := JSNum.fin 0,
                    ms := JSNum.fin 0 } :=
  ⟨by decide, by decide, by decide, by decide,
    (C19_both_flags (utcHost sampleNow)
      (recordOf (JSNum.fin 2043) (JSNum.fin 12) (JSNum.fin 1))
      (dateOfParts (recordOf (JSNum.fin 2043) (JSNum.fin 12) (JSNum.fin 1))) 12 1
      rfl (by decide) rfl (by decide)).trans (by decide),
    by decide, by decide⟩

/-! ## Unsupported directives -/

theorem assignField_unsupported (dP : DateParts) (c : Char) (v : JSNum)
    (hu : c ∉ supportedLetters) : assignField dP ['%', c] v = dP := by
  simp only [supportedLetters, List.mem_cons, List.mem_singleton, List.not_mem_nil, or_false,
    not_or] at hu
  obtain ⟨h1, h2, h3, h4, h5, h6, h7, h8⟩ := hu
  simp [assignField, h1, h2, h3, h4, h5, h6, h7, h8]

theorem fillDateParts_remove (c : Char) (hu : c ∉ supportedLetters) (v : List Char)
    (after : List (List Char × List Char)) :
    ∀ (before : List (List Char × List Char)) (dP : DateParts),
      fillDateParts dP ((before ++ (['%', c], v) :: after).map Prod.fst)
          ((before ++ (['%', c], v) :: after).map Prod.snd)
        = fillDateParts dP ((before ++ after).map Prod.fst) ((before ++ after).map Prod.snd)
  | [], dP => by
    simp [fillDateParts, assignField_unsupported dP c _ hu]
  | p :: before, dP => by
    have ih := fillDateParts_remove c hu v after before
      (assignField dP p.1 (parseInt (some p.2)))
    simpa [fillDateParts] using ih

/-- Two runs of digits separated by a hyphen are matched by `(\d+)\-(\d+)`. -/
theorem matchFirst_two {a b : List Char} (ha : DigitString a) (hb : DigitString b) :
    matchFirst [Atom.digits, Atom.char '-', Atom.digits] (a ++ ['-'] ++ b)
      = some (a ++ '-' :: (b ++ []), [a, b]) := by
  have hnil : ∀ x : Char, ([] : List Char).head? = some x → isDigit x = false := by
    intro x hx; simp at hx
  have hdash : ∀ (s : List Char) (x : Char), ('-' :: s).head? = some x → isDigit x = false := by
    intro s x hx
    simp at hx; subst hx; decide
  have h2 : matchHere [Atom.digits] (b ++ []) = some (b ++ [], [b]) :=
    matchHere_digits (r := ([], [])) hb hnil (by simp [matchHere])
  have h1 : matchHere [Atom.digits, Atom.char '-', Atom.digits] (a ++ '-' :: (b ++ []))
      = some (a ++ '-' :: (b ++ []), [a, b]) :=
    matchHere_digits ha (hdash _) (by rw [matchHere_char, h2]; rfl)
  have hs : a ++ ['-'] ++ b = a ++ '-' :: (b ++ []) := by simp
  rw [hs]
  exact matchFirst_of_matchHere h1

theorem matchFirst_year_then_unsupported (c : Char) (hc : isWordChar c = true)
    {Y v : List Char} (hY : DigitString Y) (hv : DigitString v) :
    matchAllPlaceholders ['%', 'Y', '-', '%', c] = [['%', 'Y'], ['%', c]] ∧
    matchFirst (patternAtoms ['%', 'Y', '-', '%', c]) (Y ++ ['-'] ++ v)
      = some (Y ++ '-' :: (v ++ []), [Y, v]) := by
  have htok : matchAllPlaceholders ['%', 'Y', '-', '%', c] = [['%', 'Y'], ['%', c]] := by
    simp [matchAllPlaceholders, hc]
    decide
  have hat : patternAtoms ['%', 'Y', '-', '%', c]
      = [Atom.digits, Atom.char '-', Atom.digits] := by
    simp [patternAtoms, hc]
    decide
  exact ⟨htok, by rw [hat]; exact matchFirst_two hY hv⟩

/-- C14: for every word character `c` outside `Y y m d h M S L`, the assignment
of the token `%c` changes no field; a record is the same with and without the
token and its captured value in the sequences; and for all non-empty decimal
digit strings `Y` and `v`, parsing `Y-v` with `%Y-%c` succeeds and gives the
record and the date of parsing `Y` with `%Y`. -/
theorem C14_unsupported_directive_ignored (c : Char) (hc : isWordChar c = true)
    (hu : c ∉ supportedLetters) :
    (∀ (dP : DateParts) (v : JSNum), assignField dP ['%', c] v = dP) ∧
    (∀ (dP : DateParts) (before after : List (List Char × List Char)) (v : List Char),
      fillDateParts dP ((before ++ (['%', c], v) :: after).map Prod.fst)
          ((before ++ (['%', c], v) :: after).map Prod.snd)
        = fillDateParts dP ((before ++ after).map Prod.fst)
            ((before ++ after).map Prod.snd)) ∧
    (∀ (host : Host) (Y v : List Char), DigitString Y → DigitString v →
      parsedDateParts (Y ++ ['-'] ++ v) ['%', 'Y', '-', '%', c]
        = parsedDateParts Y "%Y".toList ∧
      strftime_To_Date host (Y ++ ['-'] ++ v) ['%', 'Y', '-', '%', c] none
        = strftime_To_Date host Y "%Y".toList none ∧
      ∃ dateParts, parsedDateParts (Y ++ ['-'] ++ v) ['%', 'Y', '-', '%', c] = some dateParts ∧
        strftime_To_Date host (Y ++ ['-'] ++ v) ['%', 'Y', '-', '%', c] none
          = Except.ok (dateOfParts dateParts)) := by
  refine ⟨fun dP v => assignField_unsupported dP c v hu,
    fun dP before after v => fillDateParts_remove c hu v after before dP, ?_⟩
  intro host Y v hY hv
  obtain ⟨htok, hm⟩ := matchFirst_year_then_unsupported c hc hY hv
  have hne : matchAllPlaceholders ['%', 'Y', '-', '%', c] ≠ [] := by rw [htok]; simp
  have hne1 : matchAllPlaceholders "%Y".toList ≠ [] := by decide
  have hm1 : matchFirst (patternAtoms "%Y".toList) Y = some (Y, [Y]) := matchFirst_digits hY
  have hfill : fillDateParts defaultDateParts (matchAllPlaceholders ['%', 'Y', '-', '%', c])
      [Y, v]
      = fillDateParts defaultDateParts (matchAllPlaceholders "%Y".toList) [Y] := by
    rw [htok]
    have h := fillDateParts_remove c hu v [] [(['%', 'Y'], Y)] defaultDateParts
    simpa using h
  refine ⟨?_, ?_, ⟨_, parsedDateParts_of_match hne hm, strftime_To_Date_of_match hne hm⟩⟩
  · rw [parsedDateParts_of_match hne hm, parsedDateParts_of_match hne1 hm1]
    exact congrArg some hfill
  · rw [strftime_To_Date_of_match hne hm, strftime_To_Date_of_match hne1 hm1]
    exact congrArg (fun d => Except.ok (dateOfParts d)) hfill

/-- C14, at the example: `"2020-5"` with `%Y-%q` gives `fullYear` 2020 and
every other field at its default. -/
theorem C14_unsupported_directive_ignored_witness :
    isWordChar 'q' = true ∧ 'q' ∉ supportedLetters ∧
    (DigitString "2020".toList ∧ DigitString "5".toList) ∧
    parsedDateParts "2020-5".toList "%Y-%q".toList
      = some (recordOf (JSNum.fin 2020) (JSNum.fin 1) (JSNum.fin 1)) ∧
    strftime_To_Date (utcHost sampleNow) "2020-5".toList "%Y-%q".toList none
      = Except.ok { year := JSNum.fin 2020, monthIndex := JSNum.fin 0, date := JSNum.fin 1,
                    hours := JSNum.fin 0, minutes := JSNum.fin 0, seconds := JSNum.fin 0,
                    ms := JSNum.fin 0 } :=
  have h := (C14_unsupported_directive_ignored 'q' (by decide) (by decide)).2.2
    (utcHost sampleNow) "2020".toList "5".toList (by decide) (by decide)
  ⟨by decide, by decide, ⟨by decide, by decide⟩, h.1.trans (by decide),
    h.2.1.trans (by decide)⟩

/-! ## The pattern source in the words of the specification -/

theorem replaceAllTokens_cons_of_ne {c : Char} (hc : c ≠ '%') (s : List Char) :
    replaceAllTokens (c :: s) = c :: replaceAllTokens s := by
  cases s with
  | nil => rfl
  | cons b s => simp [replaceAllTokens, hc]

theorem replaceAllTokens_percent_cons {s : List Char} (hs : HeadNotWord s) :
    replaceAllTokens ('%' :: s) = '%' :: replaceAllTokens s := by
  cases s with
  | nil => rfl
  | cons b s => simp [replaceAllTokens, hs b rfl]

theorem replaceAllTokens_escapeChar_append {a : Char} (ha : a ≠ '%') (s : List Char) :
    replaceAllTokens (escapeChar a ++ s) = escapeChar a ++ replaceAllTokens s := by
  unfold escapeChar
  split
  · have hb : ('\\' : Char) ≠ '%' := by decide
    simp [replaceAllTokens_cons_of_ne hb, replaceAllTokens_cons_of_ne ha]
  · simp [replaceAllTokens_cons_of_ne ha]

theorem replaceAllTokens_escape : ∀ (n : Nat) (f : List Char), f.length ≤ n →
    replaceAllTokens (_escapeRegexReservedChars f) = renderPattern f
  | _, [], _ => rfl
  | _, [a], _ => by
    by_cases ha : a = '%'
    · subst ha; decide
    · have h := replaceAllTokens_escapeChar_append ha []
      simpa [escape_cons, _escapeRegexReservedChars, renderPattern, replaceAllTokens] using h
  | 0, _ :: _ :: _, h => by simp at h
  | n + 1, a :: b :: rest, h => by
    have h1 : (b :: rest).length ≤ n := by simpa using h
    have h2 : rest.length ≤ n := by simp at h1; omega
    by_cases hab : a = '%' ∧ isWordChar b = true
    · obtain ⟨rfl, hb⟩ := hab
      rw [escape_cons, escape_cons, escapeChar_percent, escapeChar_of_isWordChar hb]
      simp only [List.singleton_append, List.cons_append, List.nil_append, replaceAllTokens,
        renderPattern, hb, and_self, if_true]
      show digitGroup ++ replaceAllTokens (_escapeRegexReservedChars rest) = _
      rw [replaceAllTokens_escape n rest h2]
    · simp only [renderPattern, hab, if_false]
      rw [escape_cons]
      by_cases ha : a = '%'
      · subst ha
        have hb : isWordChar b = false := by
          cases hw : isWordChar b
          · rfl
          · exact absurd ⟨rfl, hw⟩ hab
        rw [escapeChar_percent]
        simp only [List.singleton_append]
        rw [replaceAllTokens_percent_cons (headNotWord_escape b rest hb),
          replaceAllTokens_escape n _ h1]
      · rw [replaceAllTokens_escapeChar_append ha, replaceAllTokens_escape n _ h1]

theorem matchAllPlaceholders_cons_of_ne {c : Char} (hc : c ≠ '%') (s : List Char) :
    matchAllPlaceholders (c :: s) = matchAllPlaceholders s := by
  cases s with
  | nil => rfl
  | cons b s => simp [matchAllPlaceholders, hc]

theorem matchAllPlaceholders_percent_cons {s : List Char} (hs : HeadNotWord s) :
    matchAllPlaceholders ('%' :: s) = matchAllPlaceholders s := by
  cases s with
  | nil => rfl
  | cons b s => simp [matchAllPlaceholders, hs b rfl]

theorem matchAllPlaceholders_append_of_not_mem :
    ∀ (p s : List Char), '%' ∉ p → matchAllPlaceholders (p ++ s) = matchAllPlaceholders s
  | [], _, _ => rfl
  | c :: p, s, h => by
    have hc : c ≠ '%' := fun e => h (by simp [e])
    have hp : '%' ∉ p := fun e => h (List.mem_cons_of_mem _ e)
    rw [List.cons_append, matchAllPlaceholders_cons_of_ne hc,
      matchAllPlaceholders_append_of_not_mem p s hp]

theorem headNotWord_renderPattern (b : Char) (rest : List Char) (hb : isWordChar b = false) :
    HeadNotWord (renderPattern (b :: rest)) := by
  have hesc : ∀ s : List Char, HeadNotWord (escapeChar b ++ s) := by
    intro s c hc
    unfold escapeChar at hc
    split at hc
    · simp at hc; subst hc; decide
    · simp at hc; subst hc; exact hb
  cases rest with
  | nil =>
    have := hesc []
    simpa [renderPattern] using this
  | cons x rest =>
    by_cases hbx : b = '%' ∧ isWordChar x = true
    · intro c hc
      simp [renderPattern, hbx, digitGroup] at hc
      subst hc; decide
    · simp only [renderPattern, hbx, if_false]
      exact hesc _

theorem matchAllPlaceholders_renderPattern : ∀ (n : Nat) (f : List Char), f.length ≤ n →
    matchAllPlaceholders (renderPattern f) = []
  | _, [], _ => rfl
  | _, [a], _ => by
    by_cases ha : a = '%'
    · subst ha; decide
    · have h := matchAllPlaceholders_append_of_not_mem _ [] (percent_not_mem_escapeChar ha)
      simpa [renderPattern, matchAllPlaceholders] using h
  | 0, _ :: _ :: _, h => by simp at h
  | n + 1, a :: b :: rest, h => by
    have h1 : (b :: rest).length ≤ n := by simpa using h
    have h2 : rest.length ≤ n := by simp at h1; omega
    by_cases hab : a = '%' ∧ isWordChar b = true
    · simp only [renderPattern, hab, and_self, if_true]
      rw [matchAllPlaceholders_append_of_not_mem _ _ percent_not_mem_digitGroup,
        matchAllPlaceholders_renderPattern n rest h2]
    · simp only [renderPattern, hab, if_false]
      by_cases ha : a = '%'
      · subst ha
        have hb : isWordChar b = false := by
          cases hw : isWordChar b
          · rfl
          · exact absurd ⟨rfl, hw⟩ hab
        rw [escapeChar_percent]
        simp only [List.singleton_append]
        rw [matchAllPlaceholders_percent_cons (headNotWord_renderPattern b rest hb),
          matchAllPlaceholders_renderPattern n _ h1]
      · rw [matchAllPlaceholders_append_of_not_mem _ _ (percent_not_mem_escapeChar ha),
          matchAllPlaceholders_renderPattern n _ h1]

theorem count_digits_patternAtoms : ∀ (n : Nat) (f : List Char), f.length ≤ n →
    (patternAtoms f).count Atom.digits = (matchAllPlaceholders f).length
  | _, [], _ => rfl
  | _, [a], _ => by simp [patternAtoms, matchAllPlaceholders]
  | 0, _ :: _ :: _, h => by simp at h
  | n + 1, a :: b :: rest, h => by
    have h1 : (b :: rest).length ≤ n := by simpa using h
    have h2 : rest.length ≤ n := by simp at h1; omega
    by_cases hab : a = '%' ∧ isWordChar b = true
    · simp [patternAtoms, matchAllPlaceholders, hab, count_digits_patternAtoms n rest h2]
    · simp only [patternAtoms, matchAllPlaceholders, hab, if_false]
      rw [List.count_cons_of_ne (by simp), count_digits_patternAtoms n _ h1]

/-! ## The property `source` of the pattern -/

theorem escapeRegExpPattern_plain : ∀ (p : List Char) (b : Bool),
    (∀ c ∈ p, c ≠ '/' ∧ isLineTerminator c = false) →
      escapeRegExpPattern b p = (if b then ['\\'] else []) ++ p
  | [], false, _ => rfl
  | [], true, _ => rfl
  | c :: s, false, h => by
    have hc := h c (List.mem_cons_self _ _)
    have ih := escapeRegExpPattern_plain s
    have hs : ∀ x ∈ s, x ≠ '/' ∧ isLineTerminator x = false :=
      fun x hx => h x (List.mem_cons_of_mem _ hx)
    by_cases hb : c = '\\'
    · subst hb
      simp [escapeRegExpPattern, ih true hs]
    · simp [escapeRegExpPattern, hb, hc.1, hc.2, ih false hs]
  | c :: s, true, h => by
    have hc := h c (List.mem_cons_self _ _)
    have hs : ∀ x ∈ s, x ≠ '/' ∧ isLineTerminator x = false :=
      fun x hx => h x (List.mem_cons_of_mem _ hx)
    simp [escapeRegExpPattern, hc.2, escapeRegExpPattern_plain s false hs]

theorem mem_escapeChar {a c : Char} (h : c ∈ escapeChar a) : c = a ∨ c = '\\' := by
  unfold escapeChar at h
  split at h
  · simp at h
    rcases h with h | h
    · exact Or.inr h
    · exact Or.inl h
  · simp at h
    exact Or.inl h

/-- Every character of the pattern text is a character of the format or one of
the characters of `(\d+)`. -/
theorem mem_renderPattern : ∀ (n : Nat) (f : List Char), f.length ≤ n →
    ∀ c ∈ renderPattern f, c ∈ f ∨ c ∈ digitGroup
  | _, [], _ => by simp [renderPattern]
  | _, [a], _ => by
    intro c hc
    simp only [renderPattern] at hc
    rcases mem_escapeChar hc with h | h
    · exact Or.inl (by simp [h])
    · exact Or.inr (by rw [h]; decide)
  | 0, _ :: _ :: _, h => by simp at h
  | n + 1, a :: b :: rest, h => by
    have h1 : (b :: rest).length ≤ n := by simpa using h
    have h2 : rest.length ≤ n := by simp at h1; omega
    intro c hc
    by_cases hab : a = '%' ∧ isWordChar b = true
    · simp only [renderPattern, hab, and_self, if_true, List.mem_append] at hc
      rcases hc with hc | hc
      · exact Or.inr hc
      · rcases mem_renderPattern n rest h2 c hc with h | h
        · exact Or.inl (List.mem_cons_of_mem _ (List.mem_cons_of_mem _ h))
        · exact Or.inr h
    · simp only [renderPattern, hab, if_false, List.mem_append] at hc
      rcases hc with hc | hc
      · rcases mem_escapeChar hc with h | h
        · exact Or.inl (by simp [h])
        · exact Or.inr (by rw [h]; decide)
      · rcases mem_renderPattern n _ h1 c hc with h | h
        · exact Or.inl (List.mem_cons_of_mem _ h)
        · exact Or.inr h

theorem renderPattern_ne_nil {f : List Char} (h : matchAllPlaceholders f ≠ []) :
    renderPattern f ≠ [] := by
  intro hnil
  have hp := parsePattern_renderPattern f.length f (le_refl _)
  rw [hnil] at hp
  have hd := digits_mem_patternAtoms f.length f (le_refl _) h
  have : patternAtoms f = [] := by
    simp [parsePattern, readPattern] at hp
    exact hp
  rw [this] at hd
  simp at hd

/-- The property `source` of the RegExp built for a format with a directive. -/
theorem source_renderPattern {f : List Char} (h : matchAllPlaceholders f ≠ []) :
    RegExp.source { originalSource := renderPattern f, atoms := patternAtoms f }
      = escapeRegExpPattern false (renderPattern f) := by
  simp [RegExp.source, renderPattern_ne_nil h]

theorem source_renderPattern_plain {f : List Char} (h : matchAllPlaceholders f ≠ [])
    (hf : ∀ c ∈ f, c ≠ '/' ∧ isLineTerminator c = false) :
    RegExp.source { originalSource := renderPattern f, atoms := patternAtoms f }
      = renderPattern f := by
  rw [source_renderPattern h, escapeRegExpPattern_plain _ false]
  · rfl
  · intro c hc
    rcases mem_renderPattern f.length f (le_refl _) c hc with hm | hm
    · exact hf c hm
    · simp only [digitGroup, List.mem_cons, List.mem_singleton, List.not_mem_nil,
        or_false] at hm
      rcases hm with rfl | rfl | rfl | rfl | rfl <;> exact ⟨by decide, by decide⟩

theorem headNotWord_of_matchAll_percent {s : List Char}
    (h : matchAllPlaceholders ('%' :: s) = []) : HeadNotWord s ∧ matchAllPlaceholders s = [] := by
  cases s with
  | nil => exact ⟨fun c hc => by simp at hc, rfl⟩
  | cons b s =>
    by_cases hb : isWordChar b = true
    · simp [matchAllPlaceholders, hb] at h
    · have hb' : isWordChar b = false := by simpa using hb
      refine ⟨?_, ?_⟩
      · intro c hc
        simp at hc
        subst hc
        exact hb'
      · simpa [matchAllPlaceholders, hb'] using h

theorem percent_not_mem_escapedLineTerminator (c : Char) :
    '%' ∉ escapedLineTerminator c := by
  unfold escapedLineTerminator
  split_ifs <;> decide

theorem headNotWord_escapedLineTerminator_append (c : Char) (s : List Char) :
    HeadNotWord (escapedLineTerminator c ++ s) := by
  intro x hx
  unfold escapedLineTerminator at hx
  split_ifs at hx <;> (simp at hx; subst hx; decide)

theorem escapeRegExpPattern_backslash (s : List Char) :
    escapeRegExpPattern false ('\\' :: s) = escapeRegExpPattern true s := by
  simp [escapeRegExpPattern]

theorem escapeRegExpPattern_slash (s : List Char) :
    escapeRegExpPattern false ('/' :: s) = '\\' :: '/' :: escapeRegExpPattern false s := by
  simp [escapeRegExpPattern]

theorem escapeRegExpPattern_lineTerminator (b : Bool) {c : Char} (s : List Char)
    (hl : isLineTerminator c = true) :
    escapeRegExpPattern b (c :: s) = escapedLineTerminator c ++ escapeRegExpPattern false s := by
  have h1 : c ≠ '\\' := by rintro rfl; exact absurd hl (by decide)
  have h2 : c ≠ '/' := by rintro rfl; exact absurd hl (by decide)
  cases b <;> simp [escapeRegExpPattern, h1, h2, hl]

theorem escapeRegExpPattern_other {c : Char} (s : List Char) (h1 : c ≠ '\\') (h2 : c ≠ '/')
    (hl : isLineTerminator c = false) :
    escapeRegExpPattern false (c :: s) = c :: escapeRegExpPattern false s := by
  simp [escapeRegExpPattern, h1, h2, hl]

theorem escapeRegExpPattern_escaped {c : Char} (s : List Char)
    (hl : isLineTerminator c = false) :
    escapeRegExpPattern true (c :: s) = '\\' :: c :: escapeRegExpPattern false s := by
  simp [escapeRegExpPattern, hl]

theorem headNotWord_cons {c : Char} (s : List Char) (hc : isWordChar c = false) :
    HeadNotWord (c :: s) := by
  intro x hx
  simp at hx
  rw [← hx]
  exact hc

theorem headNotWord_escapeRegExpPattern_true (s : List Char) :
    HeadNotWord (escapeRegExpPattern true s) := by
  cases s with
  | nil => exact headNotWord_cons [] (by decide)
  | cons c s =>
    cases hl : isLineTerminator c
    · rw [escapeRegExpPattern_escaped s hl]
      exact headNotWord_cons _ (by decide)
    · rw [escapeRegExpPattern_lineTerminator true s hl]
      exact headNotWord_escapedLineTerminator_append c _

theorem headNotWord_escapeRegExpPattern_false {s : List Char} (hs : HeadNotWord s) :
    HeadNotWord (escapeRegExpPattern false s) := by
  cases s with
  | nil => intro x hx; simp [escapeRegExpPattern] at hx
  | cons c s =>
    by_cases hb : c = '\\'
    · subst hb
      rw [escapeRegExpPattern_backslash]
      exact headNotWord_escapeRegExpPattern_true s
    · by_cases hsl : c = '/'
      · subst hsl
        rw [escapeRegExpPattern_slash]
        exact headNotWord_cons _ (by decide)
      · cases hl : isLineTerminator c
        · rw [escapeRegExpPattern_other s hb hsl hl]
          exact headNotWord_cons _ (hs c rfl)
        · rw [escapeRegExpPattern_lineTerminator false s hl]
          exact headNotWord_escapedLineTerminator_append c _

theorem matchAll_tail_of_ne {c : Char} {s : List Char} (hc : c ≠ '%')
    (h : matchAllPlaceholders (c :: s) = []) : matchAllPlaceholders s = [] := by
  rwa [matchAllPlaceholders_cons_of_ne hc] at h

theorem matchAll_cons_escaped {c : Char} {s : List Char}
    (h : matchAllPlaceholders (c :: s) = [])
    (ih : matchAllPlaceholders s = [] → matchAllPlaceholders (escapeRegExpPattern false s) = []) :
    matchAllPlaceholders (c :: escapeRegExpPattern false s) = [] := by
  by_cases hp : c = '%'
  · subst hp
    obtain ⟨hh, hs⟩ := headNotWord_of_matchAll_percent h
    rw [matchAllPlaceholders_percent_cons (headNotWord_escapeRegExpPattern_false hh)]
    exact ih hs
  · rw [matchAllPlaceholders_cons_of_ne hp]
    exact ih (matchAll_tail_of_ne hp h)

/-- The escaping of the engine makes no token: a text without token has a
`source` without token. -/
theorem matchAllPlaceholders_escapeRegExpPattern : ∀ (p : List Char) (b : Bool),
    matchAllPlaceholders p = [] → matchAllPlaceholders (escapeRegExpPattern b p) = []
  | [], false, _ => rfl
  | [], true, _ => rfl
  | c :: s, false, h => by
    have ih := matchAllPlaceholders_escapeRegExpPattern s
    by_cases hb : c = '\\'
    · subst hb
      rw [escapeRegExpPattern_backslash]
      exact ih true (matchAll_tail_of_ne (by decide) h)
    · by_cases hsl : c = '/'
      · subst hsl
        rw [escapeRegExpPattern_slash, matchAllPlaceholders_cons_of_ne (by decide),
          matchAllPlaceholders_cons_of_ne (by decide)]
        exact ih false (matchAll_tail_of_ne (by decide) h)
      · cases hl : isLineTerminator c
        · rw [escapeRegExpPattern_other s hb hsl hl]
          exact matchAll_cons_escaped h (ih false)
        · have hne : c ≠ '%' := by
            rintro rfl
            exact absurd hl (by decide)
          rw [escapeRegExpPattern_lineTerminator false s hl,
            matchAllPlaceholders_append_of_not_mem _ _
              (percent_not_mem_escapedLineTerminator c)]
          exact ih false (matchAll_tail_of_ne hne h)
  | c :: s, true, h => by
    have ih := matchAllPlaceholders_escapeRegExpPattern s
    cases hl : isLineTerminator c
    · rw [escapeRegExpPattern_escaped s hl, matchAllPlaceholders_cons_of_ne (by decide)]
      exact matchAll_cons_escaped h (ih false)
    · have hne : c ≠ '%' := by
        rintro rfl
        exact absurd hl (by decide)
      rw [escapeRegExpPattern_lineTerminator true s hl,
        matchAllPlaceholders_append_of_not_mem _ _
          (percent_not_mem_escapedLineTerminator c)]
      exact ih false (matchAll_tail_of_ne hne h)

/-- C16 (as stated, refuted): for the format `%d/%d` the escaped format with
every token replaced is `(\d+)/(\d+)`, and this is the text handed to
`new RegExp`, but the source of the RegExp that `buildRegexToExtractValues`
returns is `(\d+)\/(\d+)`: the engine escapes the `/`. -/
theorem C16_counterexample :
    matchAllPlaceholders "%d/%d".toList ≠ [] ∧
    replaceAllTokens (_escapeRegexReservedChars "%d/%d".toList) = "(\\d+)/(\\d+)".toList ∧
    buildRegexToExtractValues "%d/%d".toList (extractPlaceholdersAsArray "%d/%d".toList)
      = Except.ok { originalSource := "(\\d+)/(\\d+)".toList
                    atoms := [Atom.digits, Atom.char '/', Atom.digits] } ∧
    RegExp.source { originalSource := "(\\d+)/(\\d+)".toList
                    atoms := [Atom.digits, Atom.char '/', Atom.digits] }
      = "(\\d+)\\/(\\d+)".toList ∧
    RegExp.source { originalSource := "(\\d+)/(\\d+)".toList
                    atoms := [Atom.digits, Atom.char '/', Atom.digits] }
      ≠ replaceAllTokens (_escapeRegexReservedChars "%d/%d".toList) := by
  decide

/-- C16 (amended): for every format with at least one directive, repeated
tokens included, the pattern text that `buildRegexToExtractValues` hands to
`new RegExp` is the escaped format with every `%` + word character replaced by
`(\d+)`; the source of the returned RegExp is this text after the escaping of
`/` and of line terminators by the engine, and is this text itself when the
format contains no `/` and no line terminator; no token is left in the text or
in the source, and the number of capture groups is the number of extracted
directives. -/
theorem C16_pattern_text_and_source (f : List Char) (h : matchAllPlaceholders f ≠ []) :
    ∃ re : RegExp,
      buildRegexToExtractValues f (extractPlaceholdersAsArray f) = Except.ok re ∧
      re.originalSource = replaceAllTokens (_escapeRegexReservedChars f) ∧
      re.source
        = escapeRegExpPattern false (replaceAllTokens (_escapeRegexReservedChars f)) ∧
      ((∀ c ∈ f, c ≠ '/' ∧ isLineTerminator c = false) →
        re.source = replaceAllTokens (_escapeRegexReservedChars f)) ∧
      matchAllPlaceholders re.originalSource = [] ∧
      matchAllPlaceholders re.source = [] ∧
      re.atoms.count Atom.digits = (matchAllPlaceholders f).length := by
  have htext := replaceAllTokens_escape f.length f (le_refl _)
  have hno := matchAllPlaceholders_renderPattern f.length f (le_refl _)
  refine ⟨{ originalSource := renderPattern f, atoms := patternAtoms f },
    buildRegexToExtractValues_eq f h, htext.symm, ?_, ?_, hno, ?_,
    count_digits_patternAtoms f.length f (le_refl _)⟩
  · rw [source_renderPattern h, htext]
  · intro hf
    rw [source_renderPattern_plain h hf, htext]
  · rw [source_renderPattern h]
    exact matchAllPlaceholders_escapeRegExpPattern _ false hno

/-- C16, at two formats: for `%m-%d-%Y` the pattern text and the source are
`(\d+)\-(\d+)\-(\d+)`; for `%d/%d` the pattern text is `(\d+)/(\d+)`, with two
groups, and the source is `(\d+)\/(\d+)`. -/
theorem C16_pattern_text_and_source_witness :
    matchAllPlaceholders "%m-%d-%Y".toList ≠ [] ∧
    matchAllPlaceholders "%d/%d".toList ≠ [] ∧
    (∀ c ∈ "%m-%d-%Y".toList, c ≠ '/' ∧ isLineTerminator c = false) ∧
    buildRegexToExtractValues "%m-%d-%Y".toList (extractPlaceholdersAsArray "%m-%d-%Y".toList)
      = Except.ok { originalSource := "(\\d+)\\-(\\d+)\\-(\\d+)".toList
                    atoms := [Atom.digits, Atom.char '-', Atom.digits, Atom.char '-',
                              Atom.digits] } ∧
    RegExp.source { originalSource := "(\\d+)\\-(\\d+)\\-(\\d+)".toList
                    atoms := [Atom.digits, Atom.char '-', Atom.digits, Atom.char '-',
                              Atom.digits] }
      = "(\\d+)\\-(\\d+)\\-(\\d+)".toList ∧
    buildRegexToExtractValues "%d/%d".toList (extractPlaceholdersAsArray "%d/%d".toList)
      = Except.ok { originalSource := "(\\d+)/(\\d+)".toList
                    atoms := [Atom.digits, Atom.char '/', Atom.digits] } ∧
    RegExp.source { originalSource := "(\\d+)/(\\d+)".toList
                    atoms := [Atom.digits, Atom.char '/', Atom.digits] }
      = "(\\d+)\\/(\\d+)".toList := by
  obtain ⟨re, hre, _, _, hplain, _, _, _⟩ :=
    C16_pattern_text_and_source "%m-%d-%Y".toList (by decide)
  obtain ⟨re2, hre2, _, hsrc2, _, _, _, _⟩ :=
    C16_pattern_text_and_source "%d/%d".toList (by decide)
  have h1 : re = RegExp.mk "(\\d+)\\-(\\d+)\\-(\\d+)".toList
      [Atom.digits, Atom.char '-', Atom.digits, Atom.char '-', Atom.digits] :=
    Except.ok.inj (hre.symm.trans (by decide))
  have h2 : re2 = RegExp.mk "(\\d+)/(\\d+)".toList [Atom.digits, Atom.char '/', Atom.digits] :=
    Except.ok.inj (hre2.symm.trans (by decide))
  subst h1 h2
  exact ⟨by decide, by decide, by decide, hre, (hplain (by decide)).trans (by decide), hre2,
    hsrc2.trans (by decide)⟩

/-! ## The placeholders in the words of the specification -/

theorem tokenOccurrences_cons (a : Char) (s : List Char) :
    tokenOccurrences (a :: s)
      = (match tokenAt (a :: s) with
          | some t => t :: tokenOccurrences s
          | none => tokenOccurrences s) := by
  unfold tokenOccurrences
  rw [List.tails_cons, List.filterMap_cons]
  cases tokenAt (a :: s) <;> rfl

theorem matchAllPlaceholders_eq_tokenOccurrences : ∀ (n : Nat) (f : List Char),
    f.length ≤ n → matchAllPlaceholders f = tokenOccurrences f
  | _, [], _ => by simp [matchAllPlaceholders, tokenOccurrences, tokenAt]
  | _, [a], _ => by simp [matchAllPlaceholders, tokenOccurrences, tokenAt]
  | 0, _ :: _ :: _, h => by simp at h
  | n + 1, a :: b :: rest, h => by
    have h1 : (b :: rest).length ≤ n := by simpa using h
    have h2 : rest.length ≤ n := by simp at h1; omega
    by_cases hab : a = '%' ∧ isWordChar b = true
    · have hb : tokenAt (b :: rest) = none := by
        have hne : b ≠ '%' := by
          rintro rfl
          exact absurd hab.2 (by decide)
        cases rest with
        | nil => rfl
        | cons x rest => simp [tokenAt, hne]
      rw [tokenOccurrences_cons, tokenOccurrences_cons, hb]
      simp only [matchAllPlaceholders, tokenAt, hab, and_self, if_true]
      rw [matchAllPlaceholders_eq_tokenOccurrences n rest h2]
    · rw [tokenOccurrences_cons]
      simp only [matchAllPlaceholders, tokenAt, hab, if_false]
      exact matchAllPlaceholders_eq_tokenOccurrences n _ h1

/-- C17: for every format that contains a `%` followed by a word character,
`extractPlaceholdersAsArray` returns the array of the two-character substrings
`%` + word character of the format, one entry for every position at which one
starts, from left to right, whatever the word character is. -/
theorem C17_placeholders_in_order (f : List Char) (h : tokenOccurrences f ≠ []) :
    extractPlaceholdersAsArray f = some (tokenOccurrences f) := by
  have heq := matchAllPlaceholders_eq_tokenOccurrences f.length f (le_refl _)
  rw [← heq] at h ⊢
  exact extractPlaceholdersAsArray_of_ne_nil h

/-- C17, at two formats: `%m-%d-%Y` gives `%m`, `%d`, `%Y`, and `%q %d %d`
gives `%q`, `%d`, `%d`. -/
theorem C17_placeholders_in_order_witness :
    tokenOccurrences "%m-%d-%Y".toList ≠ [] ∧ tokenOccurrences "%q %d %d".toList ≠ [] ∧
    extractPlaceholdersAsArray "%m-%d-%Y".toList
      = some ["%m".toList, "%d".toList, "%Y".toList] ∧
    extractPlaceholdersAsArray "%q %d %d".toList
      = some ["%q".toList, "%d".toList, "%d".toList] :=
  ⟨by decide, by decide,
    (C17_placeholders_in_order "%m-%d-%Y".toList (by decide)).trans (by decide),
    (C17_placeholders_in_order "%q %d %d".toList (by decide)).trans (by decide)⟩

/-! ## The captured values -/

theorem tryDigits_eq_some {cont : List Char → Option MatchResult} {s : List Char}
    {r : MatchResult} : ∀ (k : Nat), tryDigits cont s k = some r →
      ∃ (j : Nat) (r' : MatchResult), 1 ≤ j ∧ j ≤ k ∧ cont (s.drop j) = some r' ∧
        r = (s.take j ++ r'.1, s.take j :: r'.2)
  | 0, h => by simp [tryDigits] at h
  | k + 1, h => by
    unfold tryDigits at h
    cases hc : cont (s.drop (k + 1)) with
    | some r' =>
      rw [hc] at h
      exact ⟨k + 1, r', by omega, le_refl _, hc, (Option.some.inj h).symm⟩
    | none =>
      rw [hc] at h
      obtain ⟨j, r', h1, h2, h3, h4⟩ := tryDigits_eq_some k h
      exact ⟨j, r', h1, by omega, h3, h4⟩

theorem isDigit_of_mem_take : ∀ (s : List Char) (j : Nat),
    j ≤ (s.takeWhile isDigit).length → ∀ c ∈ s.take j, isDigit c = true
  | [], _, _ => by simp
  | _ :: _, 0, _ => by simp
  | c :: s, j + 1, h => by
    by_cases hc : isDigit c = true
    · have hj : j ≤ (s.takeWhile isDigit).length := by
        simp [List.takeWhile, hc] at h
        exact h
      intro x hx
      simp only [List.take_succ_cons, List.mem_cons] at hx
      rcases hx with rfl | hx
      · exact hc
      · exact isDigit_of_mem_take s j hj x hx
    · simp [List.takeWhile, hc] at h

theorem length_takeWhile_isDigit_le : ∀ s : List Char,
    (s.takeWhile isDigit).length ≤ s.length
  | [] => by simp
  | c :: s => by
    by_cases hc : isDigit c = true
    · simp [List.takeWhile, hc, length_takeWhile_isDigit_le s]
    · simp [List.takeWhile, hc]

theorem digitString_take {s : List Char} {j : Nat} (h1 : 1 ≤ j)
    (h2 : j ≤ (s.takeWhile isDigit).length) : DigitString (s.take j) := by
  refine ⟨?_, List.all_eq_true.mpr (isDigit_of_mem_take s j h2)⟩
  have hlen : (s.takeWhile isDigit).length ≤ s.length := length_takeWhile_isDigit_le s
  intro hnil
  have : (s.take j).length = 0 := by rw [hnil]; rfl
  rw [List.length_take] at this
  omega

/-- A match captures one non-empty string of digits for every group. -/
theorem captures_of_matchHere : ∀ (p : List Atom) (s : List Char) (r : MatchResult),
    matchHere p s = some r →
      r.2.length = p.count Atom.digits ∧ ∀ v ∈ r.2, DigitString v
  | [], _, r, h => by
    simp [matchHere] at h
    subst h
    simp
  | Atom.char c :: p, [], r, h => by simp [matchHere] at h
  | Atom.char c :: p, d :: s, r, h => by
    by_cases hdc : d = c
    · simp only [matchHere, hdc, if_true, Option.map_eq_some'] at h
      obtain ⟨r', hr', rfl⟩ := h
      have ih := captures_of_matchHere p s r' hr'
      refine ⟨?_, ih.2⟩
      rw [List.count_cons_of_ne (by simp)]
      exact ih.1
    · simp [matchHere, hdc] at h
  | Atom.digits :: p, s, r, h => by
    simp only [matchHere] at h
    obtain ⟨j, r', h1, h2, h3, rfl⟩ := tryDigits_eq_some _ h
    have ih := captures_of_matchHere p (s.drop j) r' h3
    refine ⟨by simp [ih.1], ?_⟩
    intro v hv
    simp only [List.mem_cons] at hv
    rcases hv with rfl | hv
    · exact digitString_take h1 h2
    · exact ih.2 v hv

theorem captures_of_matchFirst (p : List Atom) : ∀ (s : List Char) (r : MatchResult),
    matchFirst p s = some r →
      r.2.length = p.count Atom.digits ∧ ∀ v ∈ r.2, DigitString v
  | [], r, h => captures_of_matchHere p [] r (by simpa [matchFirst] using h)
  | c :: s, r, h => by
    unfold matchFirst at h
    cases hm : matchHere p (c :: s) with
    | some r' =>
      rw [hm] at h
      have hr : r' = r := Option.some.inj h
      subst hr
      exact captures_of_matchHere p (c :: s) _ hm
    | none =>
      rw [hm] at h
      exact captures_of_matchFirst p s r h

/-! ## The values stored in the record -/

theorem natOrInfinity_numberOfNat (n : Nat) : NatOrInfinity (numberOfNat n) := by
  unfold numberOfNat
  split
  · exact Or.inr ⟨roundNat n, rfl⟩
  · exact Or.inl rfl

theorem natOrInfinity_add_2000 {x : JSNum} (h : NatOrInfinity x) :
    NatOrInfinity (x.add (JSNum.fin 2000)) := by
  rcases h with rfl | ⟨n, rfl⟩
  · exact Or.inl rfl
  · have : JSNum.add (JSNum.fin (n : Int)) (JSNum.fin 2000) = numberOfNat (n + 2000) := by
      show JSNum.ofInt ((n : Int) + 2000) = _
      have : ((n : Int) + 2000) = Int.ofNat (n + 2000) := by simp
      rw [this]
      rfl
    rw [this]
    exact natOrInfinity_numberOfNat _

theorem allFields_assignField {P : JSNum → Prop} {dP : DateParts} (p : List Char) {v : JSNum}
    (hd : AllFields P dP) (hv : P v) (hv2 : P (v.add (JSNum.fin 2000))) :
    AllFields P (assignField dP p v) := by
  obtain ⟨h1, h2, h3, h4, h5, h6, h7⟩ := hd
  unfold assignField
  split_ifs
  · exact ⟨hv, h2, h3, h4, h5, h6, h7⟩
  · exact ⟨hv2, h2, h3, h4, h5, h6, h7⟩
  · exact ⟨h1, hv, h3, h4, h5, h6, h7⟩
  · exact ⟨h1, h2, hv, h4, h5, h6, h7⟩
  · exact ⟨h1, h2, h3, hv, h5, h6, h7⟩
  · exact ⟨h1, h2, h3, h4, hv, h6, h7⟩
  · exact ⟨h1, h2, h3, h4, h5, hv, h7⟩
  · exact ⟨h1, h2, h3, h4, h5, h6, hv⟩
  · exact ⟨h1, h2, h3, h4, h5, h6, h7⟩

/-- A property of Numbers that the parsed values and their sums with 2000 have
is kept by every field of the record through the loop, when no value is
missing. -/
theorem allFields_fillDateParts {P : JSNum → Prop} :
    ∀ (names values : List (List Char)) (dP : DateParts),
      names.length ≤ values.length →
      (∀ v ∈ values, P (parseInt (some v)) ∧ P ((parseInt (some v)).add (JSNum.fin 2000))) →
      AllFields P dP → AllFields P (fillDateParts dP names values)
  | [], _, _, _, _, hd => hd
  | p :: names, [], _, hl, _, _ => by simp at hl
  | p :: names, v :: values, dP, hl, hv, hd => by
    have hl' : names.length ≤ values.length := by simpa using hl
    have hv0 := hv v (List.mem_cons_self _ _)
    simp only [fillDateParts, List.head?_cons, List.tail_cons]
    exact allFields_fillDateParts names values _ hl'
      (fun x hx => hv x (List.mem_cons_of_mem _ hx))
      (allFields_assignField p hd hv0.1 hv0.2)

theorem allFields_default_natOrInfinity : AllFields NatOrInfinity defaultDateParts :=
  ⟨Or.inr ⟨0, rfl⟩, Or.inr ⟨1, rfl⟩, Or.inr ⟨1, rfl⟩, Or.inr ⟨0, rfl⟩, Or.inr ⟨0, rfl⟩,
    Or.inr ⟨0, rfl⟩, Or.inr ⟨0, rfl⟩⟩

theorem allFields_default_isNat : AllFields IsNat defaultDateParts :=
  ⟨⟨0, rfl⟩, ⟨1, rfl⟩, ⟨1, rfl⟩, ⟨0, rfl⟩, ⟨0, rfl⟩, ⟨0, rfl⟩, ⟨0, rfl⟩⟩

theorem isNat_parseInt_of_lt {v : List Char} (hv : DigitString v)
    (hlt : decimalValue v + 2000 < 2 ^ 53) :
    IsNat (parseInt (some v)) ∧ IsNat ((parseInt (some v)).add (JSNum.fin 2000)) := by
  have h1 : decimalValue v < 2 ^ 53 := by omega
  rw [parseInt_digitString hv, numberOfNat_of_lt h1]
  refine ⟨⟨_, rfl⟩, ⟨decimalValue v + 2000, ?_⟩⟩
  show JSNum.ofInt ((decimalValue v : Int) + 2000) = _
  have : ((decimalValue v : Int) + 2000) = Int.ofNat (decimalValue v + 2000) := by simp
  rw [this]
  show numberOfNat (decimalValue v + 2000) = _
  exact numberOfNat_of_lt hlt

set_option maxRecDepth 100000 in
/-- C18 (as stated, refuted): with the format `%Y` and the input `1` followed by
309 zeros the pattern matches and the value stored in `fullYear` is
`+Infinity`, which is not a natural number. -/
theorem C18_counterexample :
    matchAllPlaceholders "%Y".toList ≠ [] ∧
    parsedDateParts ('1' :: List.replicate 309 '0') "%Y".toList
      = some (recordOf JSNum.posInf (JSNum.fin 1) (JSNum.fin 1)) ∧
    ¬ IsNat JSNum.posInf := by
  refine ⟨by decide, by decide, ?_⟩
  rintro ⟨n, hn⟩
  cases hn

/-- A match is the pattern with its groups filled, in order, by the captures,
and it is a text at the start of the input. -/
theorem matched_of_matchHere : ∀ (p : List Atom) (s : List Char) (r : MatchResult),
    matchHere p s = some r →
      r.1 = instantiateAtoms p r.2 ∧ ∃ rest, s = r.1 ++ rest
  | [], s, r, h => by
    simp [matchHere] at h
    subst h
    exact ⟨rfl, s, rfl⟩
  | Atom.char c :: p, [], r, h => by simp [matchHere] at h
  | Atom.char c :: p, d :: s, r, h => by
    by_cases hdc : d = c
    · simp only [matchHere, hdc, if_true, Option.map_eq_some'] at h
      obtain ⟨r', hr', rfl⟩ := h
      obtain ⟨h1, rest, h2⟩ := matched_of_matchHere p s r' hr'
      refine ⟨?_, rest, ?_⟩
      · show c :: r'.1 = c :: instantiateAtoms p r'.2
        rw [← h1]
      · show d :: s = c :: r'.1 ++ rest
        rw [hdc, h2]; rfl
    · simp [matchHere, hdc] at h
  | Atom.digits :: p, s, r, h => by
    simp only [matchHere] at h
    obtain ⟨j, r', _, _, h3, rfl⟩ := tryDigits_eq_some _ h
    obtain ⟨h1, rest, h2⟩ := matched_of_matchHere p (s.drop j) r' h3
    refine ⟨?_, rest, ?_⟩
    · show s.take j ++ r'.1 = s.take j ++ instantiateAtoms p r'.2
      rw [← h1]
    · show s = s.take j ++ r'.1 ++ rest
      rw [List.append_assoc, ← h2, List.take_append_drop]

theorem matched_of_matchFirst (p : List Atom) : ∀ (s : List Char) (r : MatchResult),
    matchFirst p s = some r →
      r.1 = instantiateAtoms p r.2 ∧ ∃ before rest, s = before ++ r.1 ++ rest
  | [], r, h => by
    obtain ⟨h1, rest, h2⟩ := matched_of_matchHere p [] r (by simpa [matchFirst] using h)
    exact ⟨h1, [], rest, by simpa using h2⟩
  | c :: s, r, h => by
    unfold matchFirst at h
    cases hm : matchHere p (c :: s) with
    | some r' =>
      rw [hm] at h
      have hr : r' = r := Option.some.inj h
      subst hr
      obtain ⟨h1, rest, h2⟩ := matched_of_matchHere p (c :: s) _ hm
      exact ⟨h1, [], rest, by simpa using h2⟩
    | none =>
      rw [hm] at h
      obtain ⟨h1, before, rest, h2⟩ := matched_of_matchFirst p s r h
      exact ⟨h1, c :: before, rest, by rw [h2]; simp⟩

/-- Filling the groups of the pattern of a format is replacing the directives
of the format. -/
theorem instantiateAtoms_patternAtoms : ∀ (n : Nat) (f : List Char), f.length ≤ n →
    ∀ values : List (List Char),
      instantiateAtoms (patternAtoms f) values = substituteValues f values
  | _, [], _, _ => rfl
  | _, [a], _, _ => by simp [patternAtoms, instantiateAtoms, substituteValues]
  | 0, _ :: _ :: _, h, _ => by simp at h
  | n + 1, a :: b :: rest, h, values => by
    have h1 : (b :: rest).length ≤ n := by simpa using h
    have h2 : rest.length ≤ n := by simp at h1; omega
    by_cases hab : a = '%' ∧ isWordChar b = true
    · simp only [patternAtoms, substituteValues, hab, and_self, if_true, instantiateAtoms]
      rw [instantiateAtoms_patternAtoms n rest h2]
    · simp only [patternAtoms, substituteValues, hab, if_false, instantiateAtoms]
      rw [instantiateAtoms_patternAtoms n _ h1]

/-- C18 (amended): for every format with at least one directive and every input
on which the derived pattern matches, the sequence returned by
`pullValuesOutOfFormattedTime` has as many entries as the directive sequence,
its i-th entry is the text captured for the i-th directive (the array of `exec`
is the matched text followed by the entries, and the matched text, a part of
the input, is the format with its i-th directive replaced by the i-th entry),
every entry is a non-empty string of decimal digits, and every value in the
record of `buildDateDatastructure` is a natural number or `+Infinity` (never
NaN, never `undefined`); it is a natural number when every captured value is
below `2 ^ 53 - 2000`. -/
theorem C18_values_are_digit_strings (f : List Char) (h : matchAllPlaceholders f ≠ []) :
    ∃ re : RegExp,
      buildRegexToExtractValues f (extractPlaceholdersAsArray f) = Except.ok re ∧
      ∀ (ts : List Char) (values : List (List Char)),
        pullValuesOutOfFormattedTime ts re = Except.ok values →
        values.length = (matchAllPlaceholders f).length ∧
        (∀ v ∈ values, DigitString v) ∧
        re.exec ts = some (substituteValues f values :: values) ∧
        (∃ before rest : List Char, ts = before ++ substituteValues f values ++ rest) ∧
        ∃ dP : DateParts,
          buildDateDatastructure (extractPlaceholdersAsArray f) values = Except.ok dP ∧
          AllFields NatOrInfinity dP ∧
          ((∀ v ∈ values, decimalValue v + 2000 < 2 ^ 53) → AllFields IsNat dP) := by
  refine ⟨{ originalSource := renderPattern f, atoms := patternAtoms f },
    buildRegexToExtractValues_eq f h, ?_⟩
  intro ts values hpull
  have hvals : ∃ r, matchFirst (patternAtoms f) ts = some r ∧ values = r.2 := by
    cases hm : matchFirst (patternAtoms f) ts with
    | none => simp [pullValuesOutOfFormattedTime, RegExp.exec, hm] at hpull
    | some r =>
      simp [pullValuesOutOfFormattedTime, RegExp.exec, hm] at hpull
      exact ⟨r, rfl, hpull.symm⟩
  obtain ⟨r, hm, rfl⟩ := hvals
  obtain ⟨hlen, hdig⟩ := captures_of_matchFirst _ ts r hm
  obtain ⟨hmatched, before, rest, hts⟩ := matched_of_matchFirst _ ts r hm
  rw [instantiateAtoms_patternAtoms f.length f (le_refl _)] at hmatched
  rw [count_digits_patternAtoms f.length f (le_refl _)] at hlen
  refine ⟨hlen, hdig, ?_, ⟨before, rest, by rw [← hmatched]; exact hts⟩,
    fillDateParts defaultDateParts (matchAllPlaceholders f) r.2, ?_, ?_, ?_⟩
  · simp [RegExp.exec, hm, hmatched]
  · rw [extractPlaceholdersAsArray_of_ne_nil h]; rfl
  · refine allFields_fillDateParts _ _ _ (le_of_eq hlen.symm) ?_ allFields_default_natOrInfinity
    intro v hv
    rw [parseInt_digitString (hdig v hv)]
    exact ⟨natOrInfinity_numberOfNat _, natOrInfinity_add_2000 (natOrInfinity_numberOfNat _)⟩
  · intro hsmall
    refine allFields_fillDateParts _ _ _ (le_of_eq hlen.symm) ?_ allFields_default_isNat
    intro v hv
    exact isNat_parseInt_of_lt (hdig v hv) (hsmall v hv)

/-- C18, at an input: for `%m-%d-%Y` and `"on 12-01-2043."` the values are the
three digit strings `12`, `01`, `2043`, in the order of the directives `%m`,
`%d`, `%Y`, and the matched text is `12-01-2043`. -/
theorem C18_values_are_digit_strings_witness :
    matchAllPlaceholders "%m-%d-%Y".toList ≠ [] ∧
    pullValuesOutOfFormattedTime "on 12-01-2043.".toList
        (RegExp.mk "(\\d+)\\-(\\d+)\\-(\\d+)".toList
          [Atom.digits, Atom.char '-', Atom.digits, Atom.char '-', Atom.digits])
      = Except.ok ["12".toList, "01".toList, "2043".toList] ∧
    ["12".toList, "01".toList, "2043".toList].length
      = (matchAllPlaceholders "%m-%d-%Y".toList).length ∧
    (∀ v ∈ ["12".toList, "01".toList, "2043".toList], DigitString v) ∧
    RegExp.exec (RegExp.mk "(\\d+)\\-(\\d+)\\-(\\d+)".toList
          [Atom.digits, Atom.char '-', Atom.digits, Atom.char '-', Atom.digits])
        "on 12-01-2043.".toList
      = some ["12-01-2043".toList, "12".toList, "01".toList, "2043".toList] := by
  obtain ⟨re, hre, hall⟩ := C18_values_are_digit_strings "%m-%d-%Y".toList (by decide)
  have hval : re = RegExp.mk "(\\d+)\\-(\\d+)\\-(\\d+)".toList
      [Atom.digits, Atom.char '-', Atom.digits, Atom.char '-', Atom.digits] :=
    Except.ok.inj (hre.symm.trans (by decide))
  subst hval
  have hpull : pullValuesOutOfFormattedTime "on 12-01-2043.".toList
      (RegExp.mk "(\\d+)\\-(\\d+)\\-(\\d+)".toList
        [Atom.digits, Atom.char '-', Atom.digits, Atom.char '-', Atom.digits])
      = Except.ok ["12".toList, "01".toList, "2043".toList] := by decide
  obtain ⟨hlen, hdig, hexec, _, _⟩ := hall _ _ hpull
  exact ⟨by decide, hpull, hlen, hdig, hexec.trans (by decide)⟩

/-! ## Adjacent directives -/

theorem tryDigits_eq_none {cont : List Char → Option MatchResult} {s : List Char} :
    ∀ k : Nat, (∀ j, 1 ≤ j → j ≤ k → cont (s.drop j) = none) → tryDigits cont s k = none
  | 0, _ => rfl
  | k + 1, h => by
    unfold tryDigits
    rw [h (k + 1) (by omega) (le_refl _)]
    exact tryDigits_eq_none k (fun j h1 h2 => h j h1 (by omega))

/-- Every atom takes at least one character: a pattern cannot match a text
shorter than its number of atoms. -/
theorem matchHere_eq_none_of_length_lt : ∀ (p : List Atom) (s : List Char),
    s.length < p.length → matchHere p s = none
  | [], _, h => by simp at h
  | Atom.char c :: p, [], _ => by simp [matchHere]
  | Atom.char c :: p, d :: s, h => by
    have hl : s.length < p.length := by simpa using h
    by_cases hdc : d = c <;> simp [matchHere, hdc, matchHere_eq_none_of_length_lt p s hl]
  | Atom.digits :: p, s, h => by
    simp only [matchHere]
    apply tryDigits_eq_none
    intro j hj hjk
    apply matchHere_eq_none_of_length_lt p
    have hk := length_takeWhile_isDigit_le s
    simp only [List.length_drop, List.length_cons] at h ⊢
    omega

theorem matchFirst_eq_none_of_length_lt (p : List Atom) : ∀ s : List Char,
    s.length < p.length → matchFirst p s = none
  | [], h => by simp [matchFirst, matchHere_eq_none_of_length_lt p [] h]
  | c :: s, h => by
    have hl : s.length < p.length := by simp at h; omega
    simp [matchFirst, matchHere_eq_none_of_length_lt p (c :: s) h,
      matchFirst_eq_none_of_length_lt p s hl]

theorem matchHere_two_digits {x y : Char} (hx : isDigit x = true) (hy : isDigit y = true) :
    matchHere [Atom.digits, Atom.digits] [x, y] = some ([x, y], [[x], [y]]) := by
  simp [matchHere, tryDigits, List.takeWhile, hx, hy]

/-- On a run of digits `a` followed by two digits `x`, `y`, the pattern
`(\d+)(\d+)(\d+)` gives `a` to the first group and one digit to each of the
other two: the first group gives back characters until the others can match. -/
theorem matchHere_adjacent {a : List Char} {x y : Char} (ha : DigitString a)
    (hx : isDigit x = true) (hy : isDigit y = true) :
    matchHere [Atom.digits, Atom.digits, Atom.digits] (a ++ [x, y])
      = some (a ++ [x, y], [a, [x], [y]]) := by
  have hall : ∀ c ∈ a ++ [x, y], isDigit c = true := by
    intro c hc
    simp only [List.mem_append, List.mem_cons, List.mem_singleton, List.not_mem_nil,
      or_false] at hc
    rcases hc with hc | rfl | rfl
    · exact isDigit_of_digitString ha c hc
    · exact hx
    · exact hy
  obtain ⟨k, hk⟩ : ∃ k, a.length = k + 1 := by
    cases a with
    | nil => exact absurd rfl ha.1
    | cons c a => exact ⟨a.length, rfl⟩
  have hlen : (a ++ [x, y]).length = k + 3 := by simp [hk]
  have hd3 : (a ++ [x, y]).drop (k + 3) = [] := by
    rw [← hlen]; simp
  have hd2 : (a ++ [x, y]).drop (k + 2) = [y] := by
    have : k + 2 = a.length + 1 := by omega
    rw [this, List.drop_append]; rfl
  have hd1 : (a ++ [x, y]).drop (k + 1) = [x, y] := by
    rw [← hk]; simp
  have ht1 : (a ++ [x, y]).take (k + 1) = a := by
    rw [← hk]; simp
  have hn3 : matchHere [Atom.digits, Atom.digits] [] = none :=
    matchHere_eq_none_of_length_lt _ _ (by simp)
  have hn2 : matchHere [Atom.digits, Atom.digits] [y] = none :=
    matchHere_eq_none_of_length_lt _ _ (by simp)
  simp only [matchHere, takeWhile_isDigit_self hall, hlen] at hn3 hn2 ⊢
  unfold tryDigits
  simp only [hd3, hn3]
  unfold tryDigits
  simp only [hd2, hn2]
  unfold tryDigits
  have hm := matchHere_two_digits hx hy
  simp only [matchHere] at hm
  simp only [hd1, hm, ht1]

theorem placeholders_adjacent :
    matchAllPlaceholders "%Y%m%d".toList = [['%', 'Y'], ['%', 'm'], ['%', 'd']] := by decide

theorem patternAtoms_adjacent :
    patternAtoms "%Y%m%d".toList = [Atom.digits, Atom.digits, Atom.digits] := by decide

theorem matchFirst_adjacent {a : List Char} {x y : Char} (ha : DigitString a)
    (hx : isDigit x = true) (hy : isDigit y = true) :
    matchFirst (patternAtoms "%Y%m%d".toList) (a ++ [x, y])
      = some (a ++ [x, y], [a, [x], [y]]) := by
  rw [patternAtoms_adjacent]
  exact matchFirst_of_matchHere (matchHere_adjacent ha hx hy)

/-- A string of at least three digits is a non-empty run of digits followed by
two digits. -/
theorem split_last_two {s : List Char} (hs : s.all isDigit = true) (hl : 3 ≤ s.length) :
    ∃ (x y : Char), isDigit x = true ∧ isDigit y = true ∧
      DigitString (s.take (s.length - 2)) ∧ s = s.take (s.length - 2) ++ [x, y] ∧
      (s.drop (s.length - 2)).take 1 = [x] ∧ s.drop (s.length - 1) = [y] := by
  have hall : ∀ c ∈ s, isDigit c = true := List.all_eq_true.mp hs
  have hdl : (s.drop (s.length - 2)).length = 2 := by
    rw [List.length_drop]; omega
  obtain ⟨x, y, hxy⟩ : ∃ x y, s.drop (s.length - 2) = [x, y] := by
    match hd : s.drop (s.length - 2), hdl with
    | [x, y], _ => exact ⟨x, y, rfl⟩
  have hsplit : s = s.take (s.length - 2) ++ [x, y] := by
    rw [← hxy, List.take_append_drop]
  have hxmem : x ∈ s := by rw [hsplit]; simp
  have hymem : y ∈ s := by rw [hsplit]; simp
  have hlast : s.drop (s.length - 1) = [y] := by
    have h1 : s.length - 1 = (s.length - 2) + 1 := by omega
    rw [h1, ← List.drop_drop, hxy]; rfl
  refine ⟨x, y, hall x hxmem, hall y hymem, ⟨?_, ?_⟩, hsplit, by rw [hxy]; rfl, hlast⟩
  · intro hnil
    have : (s.take (s.length - 2)).length = 0 := by rw [hnil]; rfl
    rw [List.length_take] at this
    omega
  · exact List.all_eq_true.mpr (fun c hc => hall c (List.mem_of_mem_take hc))

theorem fill_adjacent (a : List Char) (x y : Char) :
    fillDateParts defaultDateParts [['%', 'Y'], ['%', 'm'], ['%', 'd']] [a, [x], [y]]
      = recordOf (parseInt (some a)) (parseInt (some [x])) (parseInt (some [y])) := by
  simp [fillDateParts, assignField, defaultDateParts, recordOf]

theorem digitString_singleton {x : Char} (hx : isDigit x = true) : DigitString [x] :=
  ⟨by simp, by simp [hx]⟩

set_option maxRecDepth 100000 in
/-- C20 (as stated, refuted): for the digit string `"900719925474099312"` the
parse with `%Y%m%d` succeeds, but `fullYear` is 9007199254740992 and not
9007199254740993, the value of its first 16 digits. -/
theorem C20_counterexample :
    "900719925474099312".toList.all isDigit = true ∧
    "900719925474099312".toList.length = 18 ∧
    decimalValue ("900719925474099312".toList.take 16) = 9007199254740993 ∧
    parsedDateParts "900719925474099312".toList "%Y%m%d".toList
      = some (recordOf (JSNum.fin 9007199254740992) (JSNum.fin 1) (JSNum.fin 2)) ∧
    parsedDateParts "900719925474099312".toList "%Y%m%d".toList
      ≠ some (recordOf (JSNum.fin 9007199254740993) (JSNum.fin 1) (JSNum.fin 2)) := by
  decide

/-- C20 (amended): for every decimal digit string `s` of length `n >= 3`,
parsing `s` with `%Y%m%d` succeeds and assigns `fullYear` the Number nearest to
the value of the first `n - 2` digits, `month` the value of the digit at
position `n - 2` and `day` the value of the last digit; for every string of
length less than 3 the call throws the `PARSE_VALUE` error, under every config.
The Number nearest to a value below `2 ^ 53` is that value. -/
theorem C20_adjacent_directives (host : Host) (s : List Char)
    (hs : s.all isDigit = true) :
    (3 ≤ s.length →
      parsedDateParts s "%Y%m%d".toList
        = some (recordOf (numberOfNat (decimalValue (s.take (s.length - 2))))
            (numberOfNat (decimalValue ((s.drop (s.length - 2)).take 1)))
            (numberOfNat (decimalValue (s.drop (s.length - 1))))) ∧
      strftime_To_Date host s "%Y%m%d".toList none
        = Except.ok (dateOfParts (recordOf (numberOfNat (decimalValue (s.take (s.length - 2))))
            (numberOfNat (decimalValue ((s.drop (s.length - 2)).take 1)))
            (numberOfNat (decimalValue (s.drop (s.length - 1))))))) ∧
    (s.length < 3 → ∀ config : Option Config,
      strftime_To_Date host s "%Y%m%d".toList config
        = Except.error
            { message := "Error parsing values out of input. Make sure that the date conforms to the format specified."
              type := some "PARSE_VALUE"
              debug := { timeString := s, format := "%Y%m%d".toList,
                         regex := some { originalSource := "(\\d+)(\\d+)(\\d+)".toList
                                         atoms := [Atom.digits, Atom.digits, Atom.digits] } } }) ∧
    (∀ n : Nat, n < 2 ^ 53 → numberOfNat n = JSNum.fin n) := by
  have hne : matchAllPlaceholders "%Y%m%d".toList ≠ [] := by decide
  refine ⟨?_, ?_, fun _ h => numberOfNat_of_lt h⟩
  · intro hl
    obtain ⟨x, y, hx, hy, ha, hsplit, hmid, hlast⟩ := split_last_two hs hl
    have hm := matchFirst_adjacent ha hx hy
    rw [← hsplit] at hm
    have hrec : fillDateParts defaultDateParts (matchAllPlaceholders "%Y%m%d".toList)
        [s.take (s.length - 2), [x], [y]]
        = recordOf (numberOfNat (decimalValue (s.take (s.length - 2))))
            (numberOfNat (decimalValue ((s.drop (s.length - 2)).take 1)))
            (numberOfNat (decimalValue (s.drop (s.length - 1)))) := by
      rw [placeholders_adjacent, fill_adjacent, parseInt_digitString ha,
        parseInt_digitString (digitString_singleton hx),
        parseInt_digitString (digitString_singleton hy), hmid, hlast]
    constructor
    · rw [parsedDateParts_of_match hne hm]
      exact congrArg some hrec
    · rw [strftime_To_Date_of_match hne hm]
      exact congrArg (fun d => Except.ok (dateOfParts d)) hrec
  · intro hl config
    have hm : matchFirst (patternAtoms "%Y%m%d".toList) s = none := by
      rw [patternAtoms_adjacent]
      exact matchFirst_eq_none_of_length_lt _ s (by simpa using hl)
    rw [strftime_To_Date_of_no_match config hne hm]
    have hsrc : renderPattern "%Y%m%d".toList = "(\\d+)(\\d+)(\\d+)".toList := by decide
    rw [hsrc, patternAtoms_adjacent]
    rfl

/-- C20, at the example and at a short string: `"20431201"` with `%Y%m%d` gives
`fullYear` 204312, `month` 0 and `day` 1, and `"12"` gives the `PARSE_VALUE`
error. -/
theorem C20_adjacent_directives_witness :
    "20431201".toList.all isDigit = true ∧ 3 ≤ "20431201".toList.length ∧
    "12".toList.all isDigit = true ∧ "12".toList.length < 3 ∧
    parsedDateParts "20431201".toList "%Y%m%d".toList
      = some (recordOf (JSNum.fin 204312) (JSNum.fin 0) (JSNum.fin 1)) ∧
    errorType (strftime_To_Date (utcHost sampleNow) "12".toList "%Y%m%d".toList none)
      = some (some "PARSE_VALUE") :=
  have h1 := (C20_adjacent_directives (utcHost sampleNow) "20431201".toList (by decide)).1
    (by decide)
  have h2 := (C20_adjacent_directives (utcHost sampleNow) "12".toList (by decide)).2.1
    (by decide) none
  ⟨by decide, by decide, by decide, by decide, h1.1.trans (by decide),
    (congrArg errorType h2).trans (by decide)⟩

end StrftimeToDate
